import Mathlib

/-!
Verification of the `ebp` transaction engine (`src/ebp/engine.go`) of the
moeingevm repository.  The Go code is shallowly embedded: machine integers
become `Nat` with explicit reduction modulo `2^64` / `2^256` where the Go
code can wrap, Go maps become association lists with Go lookup semantics
(missing key yields the zero value plus an `ok = false` flag), nil pointers
become `Option`, and a Go panic becomes an explicit error value.
The deterministic parallel loops of the engine (driven by a shared atomic
counter over disjoint data) are embedded as sequential folds over the same
data, which the source itself documents as order-independent.
-/

namespace Ebp

/-- 20-byte addresses, embedded as natural numbers. -/
abbrev Addr := Nat

/-- Modulus of the Go `uint64` type. -/
def M64 : Nat := 2 ^ 64

/-- Modulus of the `uint256.Int` type used for balances, fees and values. -/
def M256 : Nat := 2 ^ 256

/-- Embedding of `Sep206Address = common.HexToAddress("0x...2711")`. -/
def Sep206Address : Addr := 0x2711

/-- Embedding of `systemContractAddress` (last six bytes are ASCII "system"). -/
def systemContractAddress : Addr := 0x73797374656d

/-- Embedding of `blackHoleContractAddress` (last nine bytes ASCII "blackhole"). -/
def blackHoleContractAddress : Addr := 0x626c61636b686f6c65

/-- Modelled from the spec: the closed status domain of `types` (the `types`
package of this repository is not under `src/`): per spec section 3,
"Status domain (closed): SUCCESS, REVERTED, ACCOUNT_NOT_EXIST,
TX_NONCE_TOO_SMALL, TX_NONCE_TOO_LARGE, FAILED_TO_COMMIT, OTHER_EVM_FAILURE". -/
inductive Status where
  | SUCCESS
  | REVERTED
  | ACCOUNT_NOT_EXIST
  | TX_NONCE_TOO_SMALL
  | TX_NONCE_TOO_LARGE
  | FAILED_TO_COMMIT
  | OTHER_EVM_FAILURE
deriving DecidableEq, Repr

/-- Embedding of `types.TxToRun` (fields per spec section 3; the `types`
package itself is not under `src/`).  `value` and `gasPrice` are the numeric
readings of the 32-byte big-endian fields, `gas` of the `u64` field. -/
structure TxToRun where
  hashID : Nat
  from_ : Addr
  to_ : Addr
  nonce : Nat
  value : Nat
  gasPrice : Nat
  gas : Nat
  data : List Nat
deriving DecidableEq, Repr

/-- Modelled from the spec: the serialized byte form `TxToRun.ToBytes`
(`types` package, not under `src/`).  Serialization is injective and
deserialization inverts it, so the byte form is embedded as the transaction
itself wrapped in a one-field structure. -/
structure TxBytes where
  tx : TxToRun
deriving DecidableEq, Repr

/-- Embedding of `TxToRun.ToBytes` under the serialization model above. -/
def TxToRun.ToBytes (tx : TxToRun) : TxBytes := ⟨tx⟩

/-- Embedding of `preparedInfo` from `engine.go`: the per-transaction output
of Prepare.  `txBytes = none` embeds the nil byte slice. -/
structure PreparedInfo where
  tx : TxToRun
  txBytes : Option TxBytes
  errorStr : String
deriving DecidableEq, Repr

/-! ### Go map embedding

A Go `map[K]V` is embedded as an association list; `goLookup` returns
`some v` when the key is present (the `v, ok := m[k]` form with `ok = true`)
and `none` otherwise, and `goInsert` replaces the binding if present. -/

/-- Go map lookup: first binding of the key, if any. -/
def goLookup {ν : Type} (m : List (Addr × ν)) (k : Addr) : Option ν :=
  match m.find? (fun p => p.1 == k) with
  | some p => some p.2
  | none => none

/-- Go map assignment `m[k] = v`: replace the binding or append it. -/
def goInsert {ν : Type} (m : List (Addr × ν)) (k : Addr) (v : ν) : List (Addr × ν) :=
  if (m.find? (fun p => p.1 == k)).isSome then
    m.map (fun p => if p.1 == k then (k, v) else p)
  else
    m ++ [(k, v)]

/-! ### Frontier (engine.go lines 78-154)

The Go type `frontier` has three maps; its methods take a possibly-nil
pointer receiver, embedded as `Option frontier`.  The balance map stores
`*uint256.Int` pointers, which may themselves be nil, hence `Option Nat`
values. -/

/-- Embedding of the `frontier` struct. -/
structure frontier where
  addr2nonce : List (Addr × Nat)
  addr2Balance : List (Addr × Option Nat)
  addr2Gas : List (Addr × Nat)
deriving DecidableEq, Repr

/-- Embedding of `(*frontier).GetLatestNonce`, with the nil-receiver guard. -/
def GetLatestNonce (nm : Option frontier) (addr : Addr) : Nat × Bool :=
  match nm with
  | none => (0, false)
  | some f =>
    match goLookup f.addr2nonce addr with
    | some n => (n, true)
    | none => (0, false)

/-- Embedding of `(*frontier).SetLatestNonce`, with the nil-receiver guard. -/
def SetLatestNonce (nm : Option frontier) (addr : Addr) (newNonce : Nat) : Option frontier :=
  match nm with
  | none => none
  | some f => some { f with addr2nonce := goInsert f.addr2nonce addr newNonce }

/-- Embedding of `(*frontier).GetLatestBalance`, with the nil-receiver guard;
the Go zero value of a `*uint256.Int` map entry is the nil pointer, i.e.
`none`. -/
def GetLatestBalance (nm : Option frontier) (addr : Addr) : Option Nat × Bool :=
  match nm with
  | none => (none, false)
  | some f =>
    match goLookup f.addr2Balance addr with
    | some b => (b, true)
    | none => (none, false)

/-- Embedding of `(*frontier).SetLatestBalance`, with the nil-receiver guard. -/
def SetLatestBalance (nm : Option frontier) (addr : Addr) (balance : Option Nat) :
    Option frontier :=
  match nm with
  | none => none
  | some f => some { f with addr2Balance := goInsert f.addr2Balance addr balance }

/-- Embedding of `(*frontier).GetLatestTotalGas`, with the nil-receiver guard. -/
def GetLatestTotalGas (nm : Option frontier) (addr : Addr) : Nat × Bool :=
  match nm with
  | none => (0, false)
  | some f =>
    match goLookup f.addr2Gas addr with
    | some g => (g, true)
    | none => (0, false)

/-- Embedding of `(*frontier).SetLatestTotalGas`, with the nil-receiver guard. -/
def SetLatestTotalGas (nm : Option frontier) (addr : Addr) (gasLimit : Nat) : Option frontier :=
  match nm with
  | none => none
  | some f => some { f with addr2Gas := goInsert f.addr2Gas addr gasLimit }

/-! ### MT19937-64

Modelled from the spec: the engine draws randomness from the external
`seehuhn/mt19937` package (not part of this repository).  Spec section 4.3:
"Shuffle the address list using a Mersenne Twister (MT19937) seeded with the
given seed", and section 9: "any reimplementation must ... carry its own
port verified against a published test vector".  The 64-bit Mersenne
Twister is implemented below over `Nat` with explicit reduction mod `2^64`;
`mt19937_reference_vector` checks it against the published first output for
seed 5489. -/

/-- One step of MT19937-64 state initialization:
`mt[i] = 6364136223846793005 * (mt[i-1] xor (mt[i-1] >> 62)) + i` mod `2^64`. -/
def mtSeedStep (prev : Nat) (i : Nat) : Nat :=
  (6364136223846793005 * (prev ^^^ (prev >>> 62)) + i) % M64

/-- The tail of the initial MT19937-64 state: `n` further words after `prev`,
the next carrying index `i`. -/
def mtInitAux (prev : Nat) (i : Nat) : Nat → List Nat
  | 0 => []
  | n + 1 => let v := mtSeedStep prev i; v :: mtInitAux v (i + 1) n

/-- MT19937-64 generator state: 312 words plus the read index. -/
structure MTState where
  state : List Nat
  index : Nat
deriving DecidableEq, Repr

/-- Modelled from the spec: `mt19937.New()` followed by `Seed(seed)`; the Go
`int64` seed is cast to `uint64` (two's complement), and the index is set to
312 so that the first draw twists. -/
def mtSeed (seed : Int) : MTState :=
  let s0 := (seed % (2 ^ 64 : Int)).toNat
  ⟨s0 :: mtInitAux s0 1 311, 312⟩

/-- High 33-bit mask of MT19937-64. -/
def mtHiMask : Nat := 0xFFFFFFFF80000000

/-- Low 31-bit mask of MT19937-64. -/
def mtLoMask : Nat := 0x7FFFFFFF

/-- The `matrixA` constant of MT19937-64. -/
def mtMatrixA : Nat := 0xB5026F5AA96619E9

/-- One in-place cell update of the MT19937-64 twist. -/
def mtTwistStep (mt : List Nat) (i : Nat) : List Nat :=
  let x := (mt.getD i 0 &&& mtHiMask) ||| (mt.getD ((i + 1) % 312) 0 &&& mtLoMask)
  let v := mt.getD ((i + 156) % 312) 0 ^^^ (x >>> 1) ^^^ (if x % 2 = 1 then mtMatrixA else 0)
  mt.set i v

/-- The MT19937-64 twist: 312 sequential in-place cell updates, so that cells
already rewritten in this pass are read back as in the reference code. -/
def mtTwist (mt : List Nat) : List Nat :=
  (List.range 312).foldl mtTwistStep mt

/-- The MT19937-64 tempering transform. -/
def mtTemper (x : Nat) : Nat :=
  let a := x ^^^ ((x >>> 29) &&& 0x5555555555555555)
  let b := a ^^^ (((a <<< 17) % M64) &&& 0x71D67FFFEDA60000)
  let c := b ^^^ (((b <<< 37) % M64) &&& 0xFFF7EEE000000000)
  c ^^^ (c >>> 43)

/-- Draw one `uint64` from the generator (twisting when 312 words are used). -/
def mtUint64 (s : MTState) : Nat × MTState :=
  let s' := if s.index ≥ 312 then MTState.mk (mtTwist s.state) 0 else s
  (mtTemper (s'.state.getD s'.index 0), ⟨s'.state, s'.index + 1⟩)

/-- Embedding of `rand.Int63()`: one `uint64` draw with the top bit cleared. -/
def mtInt63 (s : MTState) : Nat × MTState :=
  let r := mtUint64 s
  (r.1 % 2 ^ 63, r.2)

set_option maxRecDepth 8000

/-- Published MT19937-64 test vector: with seed 5489 the first output word is
14514284786278117030. -/
theorem mt19937_reference_vector : (mtUint64 (mtSeed 5489)).1 = 14514284786278117030 := by
  rfl

/-! ### Reorderer (engine.go lines 353-376, claim C3) -/

/-- Go parallel-assignment swap `l[i], l[j] = l[j], l[i]`, total on the
out-of-bounds case (which `reorderInfoList` never reaches: its indices are
reduced modulo the length). -/
def listSwap {α : Type} (l : List α) (i j : Nat) : List α :=
  match l[i]?, l[j]? with
  | some a, some b => (l.set i b).set j a
  | _, _ => l

/-- One fold step of the `addr2Infos` / `addrList` construction of
`reorderInfoList`: the Go code appends `info` to the map entry of its sender
and records the sender in `addrList` on first appearance (the map's key set
is always exactly the recorded `addrList`, so the Go `_, ok := m[from]` test
is the membership test in `addrList`).  The map is embedded as a total
function that is `[]` outside its key set. -/
def buildGroupsStep (p : (Addr → List PreparedInfo) × List Addr) (info : PreparedInfo) :
    (Addr → List PreparedInfo) × List Addr :=
  let a := info.tx.from_
  if a ∈ p.2 then
    (fun b => if b = a then p.1 a ++ [info] else p.1 b, p.2)
  else
    (fun b => if b = a then [info] else p.1 b, p.2 ++ [a])

/-- The grouping loop of `reorderInfoList` (lines 357-364). -/
def buildGroups (infoList : List PreparedInfo) : (Addr → List PreparedInfo) × List Addr :=
  infoList.foldl buildGroupsStep (fun _ => [], [])

/-- The shuffle loop of `reorderInfoList` (lines 367-371): `k` remaining
iterations, each drawing two `Int63` values reduced modulo the current list
length and swapping those positions. -/
def shuffleAddrs : Nat → List Addr × MTState → List Addr × MTState
  | 0, p => p
  | k + 1, (l, st) =>
    let d0 := mtInt63 st
    let r0 := d0.1 % l.length
    let d1 := mtInt63 d0.2
    let r1 := d1.1 % l.length
    shuffleAddrs k (listSwap l r0 r1, d1.2)

/-- Embedding of `reorderInfoList`: group by sender in first-appearance
order, seed MT19937 with `reorderSeed`, run `len(addrList)` swap iterations,
and concatenate the per-sender groups in the shuffled order. -/
def reorderInfoList (infoList : List PreparedInfo) (reorderSeed : Int) :
    List PreparedInfo × (Addr → List PreparedInfo) :=
  (((shuffleAddrs (buildGroups infoList).2.length
      ((buildGroups infoList).2, mtSeed reorderSeed)).1.map
    (buildGroups infoList).1).flatten,
  (buildGroups infoList).1)

/-- First-appearance recording step: append the sender on first sight. -/
def faStep (acc : List Addr) (i : PreparedInfo) : List Addr :=
  if i.tx.from_ ∈ acc then acc else acc ++ [i.tx.from_]

/-- Claim C3's spec-words sender list: "listing senders in order of first
appearance in infoList". -/
def addrsByFirstAppearance (infoList : List PreparedInfo) : List Addr :=
  infoList.foldl faStep []

/-- Claim C3's spec-words shuffle: "exactly len(addrList) iterations each
drawing two independent MT19937 values (seeded with reorderSeed) reduced
modulo len(addrList) and swapping those two positions", with the length
fixed up front. -/
def specSwapIter (len : Nat) : Nat → List Addr × MTState → List Addr × MTState
  | 0, p => p
  | k + 1, (l, st) =>
    let d0 := mtInt63 st
    let d1 := mtInt63 d0.2
    specSwapIter len k (listSwap l (d0.1 % len) (d1.1 % len), d1.2)

/-- Claim C3's across-sender order, written from the spec's words: senders in
first-appearance order, `len(addrList)` two-draw swaps, then the per-sender
groups (same-sender infos in original relative order) concatenated in the
shuffled order. -/
def reorderSpecView (infoList : List PreparedInfo) (seed : Int) : List PreparedInfo :=
  ((specSwapIter (addrsByFirstAppearance infoList).length
      (addrsByFirstAppearance infoList).length
      (addrsByFirstAppearance infoList, mtSeed seed)).1.map
    (fun b => infoList.filter (fun i => i.tx.from_ == b))).flatten

/-- Concrete transaction builder for witnesses: sender `a`, hash `n`, all
other fields zero. -/
def mkInfo (a : Addr) (n : Nat) : PreparedInfo :=
  ⟨⟨n, a, 0, 0, 0, 0, 0, []⟩, none, ""⟩

/-! ### Accounts, contexts and balance updates (engine.go lines 739-807)

Modelled from the spec where the `types` package is involved: "Account
interface: nonce() → u64, balance() → u256, updateBalance(u256)"
(spec section 6); the store context's `getAccount`/`setAccount` behave as an
address-keyed map, embedded as an association list. -/

/-- Account state: nonce and balance (balance is a `uint256`). -/
structure Account where
  nonce : Nat
  balance : Nat
deriving DecidableEq, Repr

/-- Embedding of `types.ZeroAccountInfo()`: fresh zero account. -/
def ZeroAccountInfo : Account := ⟨0, 0⟩

/-- The world-state view a `types.Context` offers to the engine: the
address-to-account map. -/
structure Context where
  accounts : List (Addr × Account)
deriving DecidableEq, Repr

/-- Embedding of `ctx.GetAccount`. -/
def GetAccount (ctx : Context) (addr : Addr) : Option Account :=
  goLookup ctx.accounts addr

/-- Embedding of `ctx.SetAccount`. -/
def SetAccount (ctx : Context) (addr : Addr) (acc : Account) : Context :=
  ⟨goInsert ctx.accounts addr acc⟩

/-- Embedding of `updateBalance` (engine.go lines 761-778): lazily
initializes a missing account, wraps additions mod `2^256`, and fails with
"balance not enough" on an underflowing subtraction (leaving the context
unchanged). -/
def updateBalance (ctx : Context) (address : Addr) (amount : Nat) (isAdd : Bool) :
    Except String Context :=
  let acc := (GetAccount ctx address).getD ZeroAccountInfo
  if isAdd then
    Except.ok (SetAccount ctx address { acc with balance := (acc.balance + amount) % M256 })
  else
    if acc.balance < amount then
      Except.error "balance not enough"
    else
      Except.ok (SetAccount ctx address { acc with balance := acc.balance - amount })

/-- Embedding of `SubSenderAccBalance`. -/
def SubSenderAccBalance (ctx : Context) (sender : Addr) (amount : Nat) :
    Except String Context :=
  updateBalance ctx sender amount false

/-- Embedding of `AddSystemAccBalance`. -/
def AddSystemAccBalance (ctx : Context) (amount : Nat) : Except String Context :=
  updateBalance ctx systemContractAddress amount true

/-- Embedding of `GetBalanceAfterBchTransfer` (engine.go lines 780-791); the
32-byte `value` field is read modulo `2^256` as by `BigIntFromSlice32`. -/
def GetBalanceAfterBchTransfer (ctx : Context) (address : Addr) (value : Nat) : Nat :=
  match GetAccount ctx address with
  | none => 0
  | some acc => if acc.balance < value % M256 then 0 else acc.balance - value % M256

/-! ### Prepare-time worker state and gas-fee deduction (claims C4, C7) -/

/-- Embedding of `ctxAndAccounts`: the per-worker scratch state of Prepare. -/
structure CtxAndAccounts where
  ctx : Context
  accounts : List Addr
  changed : Bool
  totalGasFee : Nat
  addr2nonce : List (Addr × Nat)
  addr2Balance : List (Addr × Nat)
deriving DecidableEq, Repr

/-- Gas fee of a transaction: `gas * gasPrice` in wrapping 256-bit arithmetic
(`gasFee.Mul` of `uint256`). -/
def txGasFee (tx : TxToRun) : Nat :=
  (tx.gas * tx.gasPrice) % M256

/-- Embedding of `deductGasFeeAndUpdateFrontier` (engine.go lines 253-286).
Returns the updated worker state, the updated info, and whether the debit
failed (the Go non-nil `error` return). -/
def deductGasFeeAndUpdateFrontier (sender : Addr) (info : PreparedInfo)
    (entry : CtxAndAccounts) : CtxAndAccounts × PreparedInfo × Bool :=
  let gasFee := txGasFee info.tx
  match SubSenderAccBalance entry.ctx sender gasFee with
  | Except.error _ =>
    ({ entry with addr2Balance := goInsert entry.addr2Balance sender 0 },
      { info with errorStr := "not enough balance to pay gasfee" }, true)
  | Except.ok ctx1 =>
    let newCached : Nat :=
      if info.tx.to_ = Sep206Address then 0
      else
        match goLookup entry.addr2Balance sender with
        | none => GetBalanceAfterBchTransfer ctx1 sender info.tx.value
        | some balance =>
          if balance < gasFee then 0
          else if balance - gasFee < info.tx.value % M256 then 0
          else balance - gasFee - info.tx.value % M256
    ({ entry with
        ctx := ctx1
        addr2Balance := goInsert entry.addr2Balance sender newCached
        totalGasFee := (entry.totalGasFee + gasFee) % M256 },
      info, false)

/-- Embedding of the per-info body of Prepare's worker loop
(engine.go lines 213-230): skip tagged infos, check and bump the cached
nonce, deduct the gas fee, and on success mark the worker changed and record
the serialized transaction. -/
def processInfoInPrepare (entry : CtxAndAccounts) (info : PreparedInfo) :
    CtxAndAccounts × PreparedInfo :=
  if info.errorStr ≠ "" then (entry, info)
  else if (goLookup entry.addr2nonce info.tx.from_).getD 0 ≠ info.tx.nonce then
    (entry, { info with errorStr := "incorrect nonce" })
  else
    let entry1 := { entry with
      addr2nonce := goInsert entry.addr2nonce info.tx.from_
        ((goLookup entry.addr2nonce info.tx.from_).getD 0 + 1) }
    let r := deductGasFeeAndUpdateFrontier info.tx.from_ info entry1
    if r.2.2 then
      (r.1, r.2.1)
    else
      ({ r.1 with changed := true }, { r.2.1 with txBytes := some info.tx.ToBytes })

/-- Claim C4's literal cached-balance update, written from the claim's words:
"the fee is subtracted from the cached balance and then either tx.value is
subtracted or the cached balance is forced to zero when the remainder is
below tx.value".  Subtraction on `uint256` wraps. -/
def c4ClaimCachedUpdate (cached fee value : Nat) : Nat :=
  let rem := (cached + (M256 - fee % M256)) % M256
  if rem < value % M256 then 0 else rem - value % M256

/-- Worker state for the C4 counterexample: sender `1` has live balance 90,
cached pending balance 5 and cached nonce 0. -/
def c4demoEntry : CtxAndAccounts :=
  { ctx := ⟨[(1, ⟨0, 90⟩)]⟩
    accounts := [1]
    changed := false
    totalGasFee := 0
    addr2nonce := [(1, 0)]
    addr2Balance := [(1, 5)]
  }

/-- Transaction for the C4 counterexample: fee `10 * 1 = 10` exceeds the
cached balance 5 while the live balance 90 covers it. -/
def c4demoInfo : PreparedInfo :=
  ⟨⟨0, 1, 2, 0, 0, 1, 10, []⟩, none, ""⟩

/-! ### Committed transaction records and the engine struct -/

/-- Embedding of `gethtypes.ReceiptStatusFailed`. -/
def ReceiptStatusFailed : Nat := 0

/-- Embedding of `gethtypes.ReceiptStatusSuccessful`. -/
def ReceiptStatusSuccessful : Nat := 1

/-- Embedding of `types.Transaction` (the committed-tx record), restricted to
the fields the engine writes in `recordInvalidTx` and
`collectCommittableTxs`. -/
structure Transaction where
  hash : Nat
  transactionIndex : Int
  nonce : Nat
  blockNumber : Int
  from_ : Addr
  to_ : Addr
  value : Nat
  gasPrice : Nat
  gas : Nat
  input : List Nat
  cumulativeGasUsed : Nat
  gasUsed : Nat
  status : Nat
  statusStr : String
deriving DecidableEq, Repr

/-- Go panics arising from nil-pointer dereference, made explicit. -/
inductive GoPanic where
  | nilPointerDeref
deriving DecidableEq, Repr

/-- Embedding of the `txEngine` struct fields relevant to the claims.
`cumulativeFeeRefund` and `cumulativeGasFee` are `*uint256.Int` in Go and
therefore `Option Nat` here (`none` is the nil pointer). -/
structure txEngine where
  roundNum : Nat
  runnerNumber : Nat
  parallelNum : Nat
  txListLen : Nat
  committedTxs : List Transaction
  cumulativeGasUsed : Nat
  cumulativeFeeRefund : Option Nat
  cumulativeGasFee : Option Nat
deriving DecidableEq, Repr

/-- Embedding of `NewEbpTxExec`: the constructor sets only the counters and
empty lists; `cumulativeGasUsed` is the Go zero value `0` and the two
cumulative pointers are left nil. -/
def NewEbpTxExec (exeRoundCount runnerNumber parallelNum _defaultTxListCap : Nat) : txEngine :=
  { roundNum := exeRoundCount
    runnerNumber := runnerNumber
    parallelNum := parallelNum
    txListLen := 0
    committedTxs := []
    cumulativeGasUsed := 0
    cumulativeFeeRefund := none
    cumulativeGasFee := none }

/-- Embedding of `(*txEngine).GasUsedInfo`.  The Go body dereferences
`exec.cumulativeFeeRefund` in both branches; a nil pointer there panics,
which the embedding reports as `Except.error`. -/
def GasUsedInfo (exec : txEngine) : Except GoPanic (Nat × Nat × Nat) :=
  if exec.cumulativeGasFee = none then
    match exec.cumulativeFeeRefund with
    | none => Except.error GoPanic.nilPointerDeref
    | some r => Except.ok (exec.cumulativeGasUsed, r, 0)
  else
    match exec.cumulativeFeeRefund, exec.cumulativeGasFee with
    | none, _ => Except.error GoPanic.nilPointerDeref
    | some r, some g => Except.ok (exec.cumulativeGasUsed, r, g)
    | some r, none => Except.ok (exec.cumulativeGasUsed, r, 0)

/-! ### Runners, the conflict resolver and the round update
(engine.go lines 504-603, claims C5, C6, C8) -/

/-- Modelled from the spec: rabbit short keys (spec section 4.7 speaks of
"short keys" with a "64-bit prefix"; the `rabbit` store is external).  A key
is a byte list; its 64-bit fingerprint is the little-endian reading of the
first eight bytes, as by `binary.LittleEndian.Uint64(key[:])`. -/
def keyFp64 (key : List Nat) : Nat :=
  (List.range 8).foldl (fun acc i => acc + key.getD i 0 % 256 * 256 ^ i) 0

/-- Embedding of `TxRunner` restricted to the fields the engine reads: the
transaction, the terminal status, the short keys recorded by its context
(with their dirty flags, in the order `ScanAllShortKeys` enumerates them),
gas used and fee refund. -/
structure TxRunner where
  tx : TxToRun
  status : Status
  ctxKeys : List (List Nat × Bool)
  gasUsed : Nat
  feeRefund : Nat
deriving DecidableEq, Repr

/-- Modelled from the spec: `TxRunner.GetGasFee` (defined outside `src/`);
per spec section 4.7 the dropped transaction's gas fee is charged, i.e.
`gas * gasPrice`. -/
def TxRunner.GetGasFee (r : TxRunner) : Nat := txGasFee r.tx

/-- Go set insertion `touchedSet[k] = struct{}{}`. -/
def setInsert (s : List Nat) (k : Nat) : List Nat :=
  if k ∈ s then s else s ++ [k]

/-- First scan of a slot (engine.go lines 559-568): walk the recorded short
keys and stop at the first whose fingerprint is already touched; returns the
`canCommit` flag. -/
def scanConflict (touched : List Nat) : List (List Nat × Bool) → Bool
  | [] => true
  | kd :: rest =>
    if keyFp64 kd.1 ∈ touched then false else scanConflict touched rest

/-- Second scan of a committable slot (engine.go lines 569-577): insert the
fingerprint of every dirty key into the touched set. -/
def insertDirtyFps (touched : List Nat) : List (List Nat × Bool) → List Nat
  | [] => touched
  | kd :: rest =>
    insertDirtyFps (if kd.2 then setInsert touched (keyFp64 kd.1) else touched) rest

/-- Embedding of the per-slot body of the conflict-resolution loop
(engine.go lines 557-579): decide `canCommit`, mark `FAILED_TO_COMMIT` on
conflict, and extend the touched set with the dirty fingerprints of a
committable slot. -/
def resolveSlot (touched : List Nat) (runner : TxRunner) :
    TxRunner × Bool × List Nat :=
  let canCommit := scanConflict touched runner.ctxKeys
  (if canCommit then runner else { runner with status := Status.FAILED_TO_COMMIT },
    canCommit,
    if canCommit then insertDirtyFps touched runner.ctxKeys else touched)

/-- Go zero-value transaction, used as the out-of-range default of bundle
indexing (never reached at the indices the loops use). -/
def dummyTx : TxToRun := ⟨0, 0, 0, 0, 0, 0, 0, []⟩

/-- Slot runner for a skipped same-sender transaction: the Go code allocates
the runner (with its transaction) and only writes `TX_NONCE_TOO_LARGE`. -/
def mkNonceTooLargeRunner (tx : TxToRun) : TxRunner :=
  { tx := tx, status := Status.TX_NONCE_TOO_LARGE, ctxKeys := [], gasUsed := 0, feeRefund := 0 }

/-- Embedding of `runTxInParallel` (engine.go lines 506-533), sequentialized
over the shared-counter indices (the source documents the result as
independent of scheduling): slot `myIdx` of the `Runners` array receives
either the forced `TX_NONCE_TOO_LARGE` runner, when the preceding bundle
slot has the same sender, or the result of the external `runTx`, which is
passed in as the function `runTxF` (spec section 6: the EVM collaborator
writes status, gas used, logs etc. into the runner). -/
def runTxInParallel (runTxF : TxToRun → TxRunner) (txBundle : List TxToRun) :
    List (Option TxRunner) :=
  (List.range txBundle.length).foldl
    (fun runners myIdx =>
      runners.set myIdx
        (some (if 0 < myIdx ∧
              (txBundle.getD (myIdx - 1) dummyTx).from_
                = (txBundle.getD myIdx dummyTx).from_ then
            mkNonceTooLargeRunner (txBundle.getD myIdx dummyTx)
          else runTxF (txBundle.getD myIdx dummyTx))))
    (List.replicate txBundle.length none)

/-- One trunk-store operation of an update block: a slot write, a slot
deletion, or the write of the standby queue's control key (the decoded
`start || end` pair). -/
inductive StoreOp where
  | set (slot : Nat) (bz : TxBytes)
  | del (slot : Nat)
  | ctrl (s e : Nat)
deriving DecidableEq, Repr

/-- State threaded through the post-round trunk update loop
(engine.go lines 584-601): the queue range, the operations issued inside the
update block, the engine's cumulative counters, and the runners left
committable (the non-nil `Runners` slots, in slot order). -/
structure RoundUpdState where
  start : Nat
  end_ : Nat
  ops : List StoreOp
  cumulativeGasUsed : Nat
  cumulativeGasFee : Nat
  committable : List TxRunner
deriving DecidableEq, Repr

/-- Retryable statuses: re-append to the standby queue. -/
def isRetry (s : Status) : Bool :=
  s = Status.FAILED_TO_COMMIT ∨ s = Status.TX_NONCE_TOO_LARGE

/-- Permanently-invalid statuses: drop and charge the full gas. -/
def isDropped (s : Status) : Bool :=
  s = Status.ACCOUNT_NOT_EXIST ∨ s = Status.TX_NONCE_TOO_SMALL

/-- Embedding of one iteration of the post-round trunk update loop
(engine.go lines 585-600): delete the slot's queue key and bump `start`;
re-serialize a retryable transaction to the queue end (bumping `end`) and
drop it from the committable list; drop a permanently invalid transaction,
charging its full gas and gas fee to the cumulative counters (`uint64`
respectively `uint256` wrapping); keep any other runner committable. -/
def updStandbyStep (st : RoundUpdState) (r : TxRunner) : RoundUpdState :=
  let st1 := { st with ops := st.ops ++ [StoreOp.del st.start], start := st.start + 1 }
  if isRetry r.status then
    { st1 with ops := st1.ops ++ [StoreOp.set st1.end_ r.tx.ToBytes], end_ := st1.end_ + 1 }
  else if isDropped r.status then
    { st1 with
        cumulativeGasUsed := (st1.cumulativeGasUsed + r.tx.gas) % M64
        cumulativeGasFee := (st1.cumulativeGasFee + r.GetGasFee) % M256 }
  else
    { st1 with committable := st1.committable ++ [r] }

/-- Embedding of the post-round trunk update (engine.go lines 583-602): fold
the per-slot step over the resolved runners, starting from the current queue
range and cumulative counters. -/
def checkTxDepsUpdateQueue (start0 end0 gasUsed0 gasFee0 : Nat)
    (runners : List TxRunner) : RoundUpdState :=
  runners.foldl updStandbyStep ⟨start0, end0, [], gasUsed0, gasFee0, []⟩

/-- Claim C6's per-slot store traffic, written from the spec's words: delete
`standby(start)`, then for a retryable status write the transaction's bytes
to `standby(end)`. -/
def roundOpsSpec : Nat → Nat → List TxRunner → List StoreOp
  | _, _, [] => []
  | s, e, r :: rest =>
    StoreOp.del s ::
      (if isRetry r.status then
        StoreOp.set e r.tx.ToBytes :: roundOpsSpec (s + 1) (e + 1) rest
      else roundOpsSpec (s + 1) e rest)

/-- Total gas of the dropped (permanently invalid) runners. -/
def droppedGasSum (runners : List TxRunner) : Nat :=
  ((runners.filter (fun r => isDropped r.status)).map (fun r => r.tx.gas)).sum

/-- Total gas fee of the dropped (permanently invalid) runners. -/
def droppedFeeSum (runners : List TxRunner) : Nat :=
  ((runners.filter (fun r => isDropped r.status)).map (fun r => r.GetGasFee)).sum

/-- Demo transaction for the C8 witness: sender 9, hash 1. -/
def c8demoTxA : TxToRun := ⟨1, 9, 0, 0, 0, 0, 0, []⟩

/-- Demo transaction for the C8 witness: sender 9 again, nonce 1, hash 2. -/
def c8demoTxB : TxToRun := ⟨2, 9, 0, 1, 0, 0, 0, []⟩

/-- Demo EVM collaborator for the C8 witness: report success, gas 21000. -/
def c8demoRunTx (tx : TxToRun) : TxRunner := ⟨tx, Status.SUCCESS, [], 21000, 0⟩

/-- Demo runner for the C6 witness: retryable (failed to commit). -/
def c6demoRetry : TxRunner := ⟨⟨1, 11, 0, 0, 0, 0, 5, []⟩, Status.FAILED_TO_COMMIT, [], 0, 0⟩

/-- Demo runner for the C6 witness: permanently invalid, gas 7, gas price 2. -/
def c6demoDrop : TxRunner := ⟨⟨2, 12, 0, 0, 0, 2, 7, []⟩, Status.ACCOUNT_NOT_EXIST, [], 0, 0⟩

/-- Demo runner for the C6 witness: committable (success). -/
def c6demoKeep : TxRunner := ⟨⟨3, 13, 0, 0, 0, 1, 9, []⟩, Status.SUCCESS, [], 9, 0⟩

/-! ### Multi-worker Prepare model (claim C7)

The account-phase of `Prepare` (engine.go lines 202-245): each worker owns a
disjoint set of senders (the `addr2idx` first-worker rule) and processes the
infos of its senders on a copy-on-write view, which is then written back;
finally the summed gas fees are credited to the system account.  The
parallel workers touch disjoint accounts, so the embedding sequentializes
them (as the source itself documents: scheduling must not affect the
result); each worker's view takes the running world in place of the written
back copies. -/

/-- One Prepare worker's batch: the infos of the senders it owns and its
preloaded nonce/balance caches (filled by `parallelReadAccounts`). -/
structure WorkerBatch where
  infos : List PreparedInfo
  addr2nonce : List (Addr × Nat)
  addr2Balance : List (Addr × Nat)
deriving DecidableEq, Repr

/-- A worker's inner loop: fold `processInfoInPrepare` over its infos,
collecting the updated infos. -/
def prepWorkerRun (entry : CtxAndAccounts) :
    List PreparedInfo → CtxAndAccounts × List PreparedInfo
  | [] => (entry, [])
  | info :: rest =>
    let r := processInfoInPrepare entry info
    let rr := prepWorkerRun r.1 rest
    (rr.1, r.2 :: rr.2)

/-- Run one worker on the current world: fresh scratch state with zero
accumulated fee and the preloaded caches. -/
def runWorker (world : Context) (w : WorkerBatch) :
    Context × Nat × List PreparedInfo :=
  let r := prepWorkerRun ⟨world, [], false, 0, w.addr2nonce, w.addr2Balance⟩ w.infos
  (r.1.ctx, r.1.totalGasFee, r.2)

/-- The account phase of Prepare: run the workers in order, write back their
contexts, and sum their `totalGasFee` values with `uint256` addition. -/
def prepareAccountPhase (world0 : Context) :
    List WorkerBatch → Context × Nat × List PreparedInfo
  | [] => (world0, 0, [])
  | w :: ws =>
    let r := runWorker world0 w
    let rr := prepareAccountPhase r.1 ws
    (rr.1, (r.2.1 + rr.2.1) % M256, r.2.2 ++ rr.2.2)

/-- The account phase followed by the single serialized credit of the summed
gas fees to the system account (engine.go lines 238-245; `AddSystemAccBalance`
never fails, so the error arm is unreachable). -/
def prepareSettle (world0 : Context) (workers : List WorkerBatch) :
    Context × Nat × List PreparedInfo :=
  let r := prepareAccountPhase world0 workers
  match AddSystemAccBalance r.1 r.2.1 with
  | Except.ok world2 => (world2, r.2.1, r.2.2)
  | Except.error _ => (r.1, r.2.1, r.2.2)

/-- Embedding of `GetSystemBalance` (engine.go lines 793-799). -/
def GetSystemBalance (ctx : Context) : Nat :=
  ((GetAccount ctx systemContractAddress).getD ZeroAccountInfo).balance

/-- Total gas fee of a list of infos. -/
def infoFeeSum (infos : List PreparedInfo) : Nat :=
  (infos.map (fun i => txGasFee i.tx)).sum

/-- Total gas fee of the accepted (untagged) infos. -/
def acceptedFeeSum (infos : List PreparedInfo) : Nat :=
  infoFeeSum (infos.filter (fun i => i.errorStr == ""))

/-- Upper bound used for no-overflow hypotheses: the gas fees of all infos
of all workers. -/
def workersFeeBound (ws : List WorkerBatch) : Nat :=
  (ws.map (fun w => infoFeeSum w.infos)).sum

/-- Sum of the balances of all accounts of a context. -/
def sumBalances (ctx : Context) : Nat :=
  (ctx.accounts.map (fun p => p.2.balance)).sum

/-- Sum of the balances of all accounts other than `a` (an account at `a`
contributes zero weight). -/
def sumBalancesExcept (ctx : Context) (a : Addr) : Nat :=
  (ctx.accounts.map (fun p => if p.1 == a then 0 else p.2.balance)).sum

/-- Weighted sum over an account list (weights may depend on key and
account), the common generalization of `sumBalances` and
`sumBalancesExcept`. -/
def wtSum (wt : Addr × Account → Nat) (m : List (Addr × Account)) : Nat :=
  (m.map wt).sum

/-- Demo world for the C7 witness: account 1 with balance 100 and the system
account with balance 50. -/
def c7demoWorld : Context := ⟨[(1, ⟨0, 100⟩), (systemContractAddress, ⟨0, 50⟩)]⟩

/-- Demo worker for the C7 witness: one untagged transaction from sender 1
(gas 10, gas price 2, value 3, hence fee 20). -/
def c7demoWorker : WorkerBatch :=
  ⟨[⟨⟨7, 1, 3, 0, 3, 2, 10, []⟩, none, ""⟩], [(1, 0)], [(1, 100)]⟩

/-! ### The standby queue store, Prepare's insertion and Execute
(claims C1, C2) -/

/-- Go map deletion. -/
def goDelete {ν : Type} (m : List (Addr × ν)) (k : Addr) : List (Addr × ν) :=
  m.filter (fun p => !(p.1 == k))

/-- The part of the trunk store the standby queue lives in: the control key
(absent or a decoded `(start, end)` pair) and the per-slot entries. -/
structure QStore where
  ctrl : Option (Nat × Nat)
  slots : List (Nat × TxBytes)
deriving DecidableEq, Repr

/-- Apply one store operation. -/
def applyOp (st : QStore) : StoreOp → QStore
  | StoreOp.set i bz => { st with slots := goInsert st.slots i bz }
  | StoreOp.del i => { st with slots := goDelete st.slots i }
  | StoreOp.ctrl s e => { st with ctrl := some (s, e) }

/-- Apply one update block's operations in order. -/
def applyOps (st : QStore) (ops : List StoreOp) : QStore :=
  ops.foldl applyOp st

/-- Embedding of `getStandbyQueueRange` (engine.go lines 458-466): a missing
control key reads as `(0, 0)`. -/
def ctrlRange (st : QStore) : Nat × Nat :=
  match st.ctrl with
  | none => (0, 0)
  | some p => p

/-- The persisted-queue invariant of claim C1: `start ≤ end` and exactly the
slots `[start, end)` are populated. -/
def queueInvariant (st : QStore) : Prop :=
  (ctrlRange st).1 ≤ (ctrlRange st).2 ∧
  ∀ i : Nat, (goLookup st.slots i).isSome = true ↔
    ((ctrlRange st).1 ≤ i ∧ i < (ctrlRange st).2)

/-- The slots populated in a store are exactly `[s, e)` (the slot half of
the invariant, tracked through Execute's rounds while the persisted control
key is stale). -/
def slotsExactly (st : QStore) (s e : Nat) : Prop :=
  ∀ i : Nat, (goLookup st.slots i).isSome = true ↔ (s ≤ i ∧ i < e)

/-- Embedding of `recordInvalidTx` (engine.go lines 398-419): append a
committed-tx record with binary status FAIL, zero gas used and the error
tag in `statusStr`. -/
def recordInvalidTx (committedTxs : List Transaction) (cumulativeGasUsed : Nat)
    (blockNumber : Int) (blockHeight : Nat) (info : PreparedInfo) :
    List Transaction :=
  committedTxs ++
    [{ hash := info.tx.hashID
       transactionIndex := (committedTxs.length : Int)
       nonce := info.tx.nonce
       blockNumber := blockNumber
       from_ := info.tx.from_
       to_ := info.tx.to_
       value := info.tx.value
       gasPrice := info.tx.gasPrice
       gas := info.tx.gas
       input := info.tx.data
       cumulativeGasUsed := cumulativeGasUsed
       gasUsed := 0
       status := ReceiptStatusFailed
       statusStr := info.errorStr }]

/-- Embedding of `insertToStandbyTxQ` (engine.go lines 379-396): one trunk
update block that, walking the reordered infos, records tagged infos as
invalid committed transactions (writing no slot for them) and writes the
serialized bytes of untagged infos to consecutive slots at the queue end,
finally rewriting the control key with the old `start` and the new `end`. -/
def insertToStandbyTxQ (committedTxs : List Transaction) (cumulativeGasUsed : Nat)
    (blockNumber : Int) (blockHeight : Nat) (infoList : List PreparedInfo)
    (start0 end0 : Nat) : List Transaction × List StoreOp :=
  let r := infoList.foldl
    (fun (acc : List Transaction × List StoreOp × Nat) info =>
      if info.errorStr ≠ "" then
        (recordInvalidTx acc.1 cumulativeGasUsed blockNumber blockHeight info,
          acc.2.1, acc.2.2)
      else
        (acc.1, acc.2.1 ++ [StoreOp.set acc.2.2 (info.txBytes.getD ⟨dummyTx⟩)],
          acc.2.2 + 1))
    (committedTxs, [], end0)
  (r.1, r.2.1 ++ [StoreOp.ctrl start0 r.2.2])

/-- Execute's handling of `committedTxs` around a Prepare for the same
engine: `Execute` first truncates the committed list (engine.go line 423,
`committedTxs[:0]`) and then fills it with the committable records;
`Prepare`'s `insertToStandbyTxQ` then appends the invalid-tx records. -/
def executeThenPrepareCommitted (prevCommitted collected : List Transaction)
    (cumulativeGasUsed : Nat) (blockNumber : Int) (blockHeight : Nat)
    (infoList : List PreparedInfo) (start0 end0 : Nat) :
    List Transaction × List StoreOp :=
  let afterReset := prevCommitted.drop prevCommitted.length
  let afterExecute := afterReset ++ collected
  insertToStandbyTxQ afterExecute cumulativeGasUsed blockNumber blockHeight
    infoList start0 end0

/-- Claim C2's records, written from the claim's words: one FAIL record per
tagged info, in input order, with consecutive transaction indices. -/
def c2RecordsSpec (cumulativeGasUsed : Nat) (blockNumber : Int) :
    Nat → List PreparedInfo → List Transaction
  | _, [] => []
  | idx, info :: rest =>
    if info.errorStr ≠ "" then
      { hash := info.tx.hashID
        transactionIndex := (idx : Int)
        nonce := info.tx.nonce
        blockNumber := blockNumber
        from_ := info.tx.from_
        to_ := info.tx.to_
        value := info.tx.value
        gasPrice := info.tx.gasPrice
        gas := info.tx.gas
        input := info.tx.data
        cumulativeGasUsed := cumulativeGasUsed
        gasUsed := 0
        status := ReceiptStatusFailed
        statusStr := info.errorStr } :: c2RecordsSpec cumulativeGasUsed blockNumber (idx + 1) rest
    else c2RecordsSpec cumulativeGasUsed blockNumber idx rest

/-- Claim C2's store traffic, written from the claim's words: slot writes
only for the untagged infos, at consecutive queue-end positions. -/
def c2OpsSpec : Nat → List PreparedInfo → List StoreOp
  | _, [] => []
  | e, info :: rest =>
    if info.errorStr ≠ "" then c2OpsSpec e rest
    else StoreOp.set e (info.txBytes.getD ⟨dummyTx⟩) :: c2OpsSpec (e + 1) rest

/-- Number of untagged infos. -/
def untaggedCount (infoList : List PreparedInfo) : Nat :=
  (infoList.filter (fun i => i.errorStr == "")).length

/-- Embedding of `loadStandbyTxs` (engine.go lines 488-502): read and
deserialize at most `runnerNumber` transactions from the queue head. -/
def loadStandbyTxs (st : QStore) (start end_ runnerNumber : Nat) : List TxToRun :=
  (List.range (min runnerNumber (end_ - start))).map
    (fun i => ((goLookup st.slots (start + i)).getD ⟨dummyTx⟩).tx)

/-- Runners of one round, with the terminal statuses supplied by the
external EVM collaborator and conflict resolution, abstracted as an oracle
from (remaining-round count, transaction) to status. -/
def roundRunners (oracle : Nat → TxToRun → Status) (round : Nat)
    (bundle : List TxToRun) : List TxRunner :=
  bundle.map (fun tx => ⟨tx, oracle round tx, [], 0, 0⟩)

/-- Embedding of Execute's round loop (engine.go lines 440-452): up to the
given number of rounds, stopping on an empty queue; each round loads a
bundle, resolves it and issues one trunk update block of slot operations;
returns the blocks in order and the final in-memory range. -/
def executeRounds (oracle : Nat → TxToRun → Status) (runnerNumber : Nat) :
    Nat → QStore → Nat → Nat → List (List StoreOp) × Nat × Nat
  | 0, _, s, e => ([], s, e)
  | n + 1, st, s, e =>
    if s = e then ([], s, e)
    else
      let upd := checkTxDepsUpdateQueue s e 0 0
        (roundRunners oracle (n + 1) (loadStandbyTxs st s e runnerNumber))
      let rest := executeRounds oracle runnerNumber n (applyOps st upd.ops)
        upd.start upd.end_
      (upd.ops :: rest.1, rest.2)

/-- Embedding of `Execute`'s trunk traffic (engine.go lines 422-455): an
empty queue returns without touching the store; otherwise the round blocks
are issued and then `setStandbyQueueRange` writes the control key in one
more, separate update block. -/
def ExecuteModel (oracle : Nat → TxToRun → Status) (roundNum runnerNumber : Nat)
    (st0 : QStore) : List (List StoreOp) × Nat × Nat :=
  let s0 := (ctrlRange st0).1
  let e0 := (ctrlRange st0).2
  if s0 = e0 then ([], s0, e0)
  else
    let r := executeRounds oracle runnerNumber roundNum st0 s0 e0
    (r.1 ++ [[StoreOp.ctrl r.2.1 r.2.2]], r.2)

/-- Demo store for claims C1: range `[0, 1)` with one queued transaction. -/
def c1demoStore : QStore := ⟨some (0, 1), [(0, TxToRun.ToBytes ⟨5, 21, 22, 0, 0, 1, 9, []⟩)]⟩

/-- Demo tagged info for the C2 witness. -/
def c2demoTagged : PreparedInfo :=
  ⟨⟨9, 4, 5, 0, 0, 1, 21000, []⟩, none, "invalid signature"⟩

/-- Demo accepted info for the C2 witness. -/
def c2demoOk : PreparedInfo :=
  ⟨⟨10, 6, 5, 1, 0, 1, 21000, []⟩,
    some (TxToRun.ToBytes ⟨10, 6, 5, 1, 0, 1, 21000, []⟩), ""⟩

/-! ### Lemmas for claim C3 -/

/-- Replacing position `n` of a list exchanges one occurrence: counts match
after accounting for the removed and the inserted element. -/
theorem count_set_count {α : Type} [DecidableEq α] (x b : α) :
    ∀ (l : List α) (n : Nat), n < l.length →
      (l.set n b).count x + (if l.getD n b == x then 1 else 0)
        = l.count x + (if b == x then 1 else 0) := by
  intro l
  induction l with
  | nil => intro n h; simp at h
  | cons c t ih =>
    intro n h
    match n with
    | 0 =>
      simp only [List.set_cons_zero, List.getD_cons_zero, List.count_cons]
      split_ifs <;> omega
    | m + 1 =>
      have h' : m < t.length := by simpa using h
      have := ih m h'
      simp only [List.set_cons_succ, List.getD_cons_succ, List.count_cons]
      omega

/-- The Go parallel-assignment swap permutes the list. -/
theorem listSwap_perm {α : Type} [DecidableEq α] (l : List α) (i j : Nat) :
    List.Perm (listSwap l i j) l := by
  rw [listSwap]
  split
  next a b h0 h1 =>
    rcases List.getElem?_eq_some_iff.mp h0 with ⟨hi, ha⟩
    rcases List.getElem?_eq_some_iff.mp h1 with ⟨hj, hb⟩
    rw [List.perm_iff_count]
    intro x
    have hjl : j < (l.set i b).length := by rw [List.length_set]; exact hj
    have c1 := count_set_count x b l i hi
    have c2 := count_set_count x a (l.set i b) j hjl
    have hgi : l.getD i b = a := by
      rw [List.getD_eq_getElem?_getD, List.getElem?_eq_getElem hi]
      simpa using ha
    have hmid : (l.set i b).getD j a = b := by
      rw [List.getD_eq_getElem?_getD, List.getElem?_eq_getElem hjl]
      by_cases hij : i = j
      · subst hij; simp [List.getElem_set]
      · simp only [List.getElem_set, if_neg hij, Option.getD_some]
        exact hb
    rw [hgi] at c1
    rw [hmid] at c2
    omega
  next => exact List.Perm.refl l

/-- The shuffle loop returns a permutation of its input list. -/
theorem shuffleAddrs_perm : ∀ (k : Nat) (l : List Addr) (st : MTState),
    List.Perm (shuffleAddrs k (l, st)).1 l := by
  intro k
  induction k with
  | zero => intro l st; exact List.Perm.refl l
  | succ k ih =>
    intro l st
    exact List.Perm.trans (ih _ _) (listSwap_perm l _ _)

/-- The swap keeps the list length. -/
theorem listSwap_length {α : Type} (l : List α) (i j : Nat) :
    (listSwap l i j).length = l.length := by
  rw [listSwap]
  split
  next => simp
  next => rfl

/-- The grouping fold builds exactly the per-sender filters: its map sends
every address to the previously accumulated group followed by the sender's
infos of the remaining input, in input order. -/
theorem buildGroups_fold_fst (l : List PreparedInfo) :
    ∀ (m : Addr → List PreparedInfo) (al : List Addr),
      (∀ b, b ∉ al → m b = []) →
      ∀ a, (l.foldl buildGroupsStep (m, al)).1 a
            = m a ++ l.filter (fun i => i.tx.from_ == a) := by
  induction l with
  | nil => intro m al _ a; simp
  | cons info t ih =>
    intro m al hinv a
    rw [List.foldl_cons]
    by_cases hmem : info.tx.from_ ∈ al
    · rw [show buildGroupsStep (m, al) info
          = (fun b => if b = info.tx.from_ then m info.tx.from_ ++ [info] else m b, al) from by
        simp [buildGroupsStep, hmem]]
      rw [ih _ _ (fun b hb => by
        by_cases hbf : b = info.tx.from_
        · subst hbf; exact absurd hmem hb
        · simp only [if_neg hbf]; exact hinv b hb)]
      by_cases haf : a = info.tx.from_
      · subst haf
        simp [List.filter_cons, List.append_assoc]
      · have : (info.tx.from_ == a) = false := by
          simp only [beq_eq_false_iff_ne, ne_eq]
          exact fun h => haf h.symm
        simp [List.filter_cons, this, if_neg haf]
    · rw [show buildGroupsStep (m, al) info
          = (fun b => if b = info.tx.from_ then [info] else m b, al ++ [info.tx.from_]) from by
        simp [buildGroupsStep, hmem]]
      rw [ih _ _ (fun b hb => by
        have hb1 : b ∉ al := fun h => hb (List.mem_append_left _ h)
        have hb2 : b ≠ info.tx.from_ := fun h => by
          exact hb (h ▸ List.mem_append_right _ (List.mem_singleton_self _))
        simp only [if_neg hb2]; exact hinv b hb1)]
      by_cases haf : a = info.tx.from_
      · subst haf
        have hma : m info.tx.from_ = [] := hinv _ hmem
        simp [List.filter_cons, hma]
      · have : (info.tx.from_ == a) = false := by
          simp only [beq_eq_false_iff_ne, ne_eq]
          exact fun h => haf h.symm
        simp [List.filter_cons, this, if_neg haf]

/-- The address-list component of the grouping fold is the plain
first-appearance fold; it ignores the map component. -/
theorem buildGroups_fold_snd (l : List PreparedInfo) :
    ∀ (m : Addr → List PreparedInfo) (al : List Addr),
      (l.foldl buildGroupsStep (m, al)).2 = l.foldl faStep al := by
  induction l with
  | nil => intro m al; simp
  | cons info t ih =>
    intro m al
    rw [List.foldl_cons, List.foldl_cons]
    by_cases hmem : info.tx.from_ ∈ al <;>
      simp [buildGroupsStep, faStep, hmem, ih]

/-- The first-appearance fold never introduces a duplicate address. -/
theorem fa_fold_nodup (l : List PreparedInfo) :
    ∀ al : List Addr, al.Nodup → (l.foldl faStep al).Nodup := by
  induction l with
  | nil => intro al h; simpa using h
  | cons info t ih =>
    intro al h
    rw [List.foldl_cons]
    by_cases hmem : info.tx.from_ ∈ al
    · rw [show faStep al info = al from by simp [faStep, hmem]]
      exact ih al h
    · rw [show faStep al info = al ++ [info.tx.from_] from by simp [faStep, hmem]]
      refine ih _ ?_
      exact ((List.perm_append_singleton _ _).symm).nodup
        (List.nodup_cons.mpr ⟨hmem, h⟩)

/-- Membership in the first-appearance fold: the accumulated addresses plus
the senders of the processed infos. -/
theorem fa_fold_mem (l : List PreparedInfo) :
    ∀ (al : List Addr) (a : Addr),
      a ∈ l.foldl faStep al ↔ a ∈ al ∨ ∃ i ∈ l, i.tx.from_ = a := by
  induction l with
  | nil => intro al a; simp
  | cons info t ih =>
    intro al a
    rw [List.foldl_cons]
    by_cases hmem : info.tx.from_ ∈ al
    · rw [show faStep al info = al from by simp [faStep, hmem]]
      rw [ih]
      constructor
      · rintro (h | ⟨i, hi, hfi⟩)
        · exact Or.inl h
        · exact Or.inr ⟨i, List.mem_cons_of_mem _ hi, hfi⟩
      · rintro (h | ⟨i, hi, hfi⟩)
        · exact Or.inl h
        · rcases List.mem_cons.mp hi with hi | hi
          · exact Or.inl (by rw [← hfi, hi]; exact hmem)
          · exact Or.inr ⟨i, hi, hfi⟩
    · rw [show faStep al info = al ++ [info.tx.from_] from by simp [faStep, hmem]]
      rw [ih]
      constructor
      · rintro (h | ⟨i, hi, hfi⟩)
        · rcases List.mem_append.mp h with h | h
          · exact Or.inl h
          · exact Or.inr ⟨info, List.mem_cons_self _ _, (List.mem_singleton.mp h).symm⟩
        · exact Or.inr ⟨i, List.mem_cons_of_mem _ hi, hfi⟩
      · rintro (h | ⟨i, hi, hfi⟩)
        · exact Or.inl (List.mem_append_left _ h)
        · rcases List.mem_cons.mp hi with hi | hi
          · subst hi
            exact Or.inl (List.mem_append_right _ (List.mem_singleton.mpr hfi.symm))
          · exact Or.inr ⟨i, hi, hfi⟩

/-- Filtering the concatenation of per-sender groups over a duplicate-free
address list isolates the group of the filtered sender. -/
theorem flatten_filter_groups (l : List PreparedInfo) (a : Addr) :
    ∀ s : List Addr, s.Nodup →
      ((s.map (fun b => l.filter (fun i => i.tx.from_ == b))).flatten.filter
          (fun i => i.tx.from_ == a))
        = if a ∈ s then l.filter (fun i => i.tx.from_ == a) else [] := by
  intro s
  induction s with
  | nil => simp
  | cons b s ih =>
    intro hnd
    rcases List.nodup_cons.mp hnd with ⟨hb, hnd'⟩
    rw [List.map_cons, List.flatten_cons, List.filter_append, ih hnd',
      List.filter_filter]
    by_cases hab : a = b
    · subst hab
      have h1 : (fun i => (i.tx.from_ == a) && (i.tx.from_ == a))
          = fun i : PreparedInfo => i.tx.from_ == a := by
        funext i; exact Bool.and_self _
      rw [h1, if_neg hb, if_pos (List.mem_cons_self a s), List.append_nil]
    · have h1 : l.filter (fun i => (i.tx.from_ == a) && (i.tx.from_ == b)) = [] := by
        rw [List.filter_eq_nil_iff]
        intro i _
        simp only [Bool.and_eq_true, beq_iff_eq, not_and]
        intro h1 h2
        exact hab (h1 ▸ h2 ▸ rfl)
      rw [h1, List.nil_append]
      by_cases hs : a ∈ s
      · rw [if_pos hs, if_pos (List.mem_cons_of_mem _ hs)]
      · rw [if_neg hs, if_neg (by simp [List.mem_cons, hab, hs])]

/-- The spec-words shuffle with the length fixed up front agrees with the
source shuffle, whose modulus is the (invariant) current length. -/
theorem specSwapIter_eq_shuffle (len : Nat) :
    ∀ (k : Nat) (l : List Addr) (st : MTState), l.length = len →
      specSwapIter len k (l, st) = shuffleAddrs k (l, st) := by
  intro k
  induction k with
  | zero => intro l st _; rfl
  | succ k ih =>
    intro l st hl
    rw [specSwapIter, shuffleAddrs, hl]
    exact ih _ _ (by rw [listSwap_length, hl])

/-- Claim C3: `reorderInfoList` is a pure function of `(infoList, reorderSeed)`
(equal inputs give identical output); infos with the same sender appear in the
output in their original relative order; and the across-sender order follows
the spec's words: senders listed in order of first appearance, then exactly
`len(addrList)` iterations each drawing two independent MT19937 values
(seeded with `reorderSeed`) reduced modulo `len(addrList)` and swapping those
positions, then the per-sender groups concatenated in the shuffled order. -/
theorem c3_reorderInfoList_pure_stable_structured
    (infoList l2 : List PreparedInfo) (seed s2 : Int) (a : Addr)
    (hl : infoList = l2) (hs : seed = s2) :
    reorderInfoList infoList seed = reorderInfoList l2 s2 ∧
    (reorderInfoList infoList seed).1.filter (fun i => i.tx.from_ == a) =
      infoList.filter (fun i => i.tx.from_ == a) ∧
    (reorderInfoList infoList seed).1 = reorderSpecView infoList seed := by
  subst hl; subst hs
  have hm : (buildGroups infoList).1
      = fun b => infoList.filter (fun i => i.tx.from_ == b) :=
    funext fun b => by
      simpa [buildGroups] using
        buildGroups_fold_fst infoList (fun _ => []) [] (fun _ _ => rfl) b
  have hsnd : (buildGroups infoList).2 = addrsByFirstAppearance infoList := by
    simpa [buildGroups, addrsByFirstAppearance] using
      buildGroups_fold_snd infoList (fun _ => []) []
  have hperm := shuffleAddrs_perm (buildGroups infoList).2.length
    (buildGroups infoList).2 (mtSeed seed)
  have hndal : (buildGroups infoList).2.Nodup := by
    rw [hsnd]; exact fa_fold_nodup infoList [] List.nodup_nil
  have hnd : (shuffleAddrs (buildGroups infoList).2.length
      ((buildGroups infoList).2, mtSeed seed)).1.Nodup := hperm.symm.nodup hndal
  refine ⟨rfl, ?_, ?_⟩
  · simp only [reorderInfoList]
    rw [hm, flatten_filter_groups infoList a _ hnd]
    by_cases hmemsh : a ∈ (shuffleAddrs (buildGroups infoList).2.length
        ((buildGroups infoList).2, mtSeed seed)).1
    · rw [if_pos hmemsh]
    · rw [if_neg hmemsh]
      symm
      rw [List.filter_eq_nil_iff]
      intro i hi hp
      apply hmemsh
      rw [hperm.mem_iff, hsnd, addrsByFirstAppearance]
      exact (fa_fold_mem infoList [] a).mpr (Or.inr ⟨i, hi, by simpa using hp⟩)
  · simp only [reorderInfoList, reorderSpecView]
    rw [hm, hsnd, specSwapIter_eq_shuffle (addrsByFirstAppearance infoList).length
      (addrsByFirstAppearance infoList).length (addrsByFirstAppearance infoList)
      (mtSeed seed) rfl]

/-- Witness for claim C3: the same-sender order is preserved on a concrete
three-transaction list with two senders, the hypotheses being discharged by
`rfl` at that input. -/
theorem c3_reorderInfoList_witness :
    (reorderInfoList [mkInfo 5 0, mkInfo 7 1, mkInfo 5 2] 42).1.filter
        (fun i => i.tx.from_ == 5) = [mkInfo 5 0, mkInfo 5 2] := by
  rw [(c3_reorderInfoList_pure_stable_structured [mkInfo 5 0, mkInfo 7 1, mkInfo 5 2]
    [mkInfo 5 0, mkInfo 7 1, mkInfo 5 2] 42 42 5 rfl rfl).2.1]
  rfl

/-! ### Association-list lemmas for the Go map embedding -/

/-- Lookup on a cons cell. -/
theorem goLookup_cons {ν : Type} (p : Addr × ν) (t : List (Addr × ν)) (k : Addr) :
    goLookup (p :: t) k = if p.1 == k then some p.2 else goLookup t k := by
  by_cases h : (p.1 == k) = true
  · simp [goLookup, h]
  · simp [goLookup, h]

/-- A lookup misses exactly when `find?` does. -/
theorem goLookup_eq_none {ν : Type} (m : List (Addr × ν)) (k : Addr) :
    goLookup m k = none ↔ m.find? (fun q => q.1 == k) = none := by
  rw [goLookup]
  cases m.find? (fun q => q.1 == k) <;> simp

/-- Replacing the bindings of key `k` leaves lookups of other keys alone. -/
theorem goLookup_mapReplace_ne {ν : Type} (t : List (Addr × ν)) (k k' : Addr) (v : ν)
    (hne : k' ≠ k) :
    goLookup (t.map (fun q => if q.1 == k then (k, v) else q)) k' = goLookup t k' := by
  induction t with
  | nil => rfl
  | cons q r ih =>
    rw [List.map_cons]
    by_cases hqk : (q.1 == k) = true
    · have hq : q.1 = k := by simpa using hqk
      rw [if_pos hqk, goLookup_cons, goLookup_cons]
      have h1 : (k == k') = false := by
        simp only [beq_eq_false_iff_ne, ne_eq]
        exact fun h => hne h.symm
      have h2 : (q.1 == k') = false := by
        rw [hq]; exact h1
      rw [h1, h2, if_neg (by simp), if_neg (by simp)]
      exact ih
    · rw [if_neg hqk, goLookup_cons, goLookup_cons]
      by_cases hq' : (q.1 == k') = true
      · rw [if_pos hq', if_pos hq']
      · rw [if_neg hq', if_neg hq']
        exact ih

/-- If key `k` is present, replacing its bindings makes its lookup `v`. -/
theorem goLookup_mapReplace_self {ν : Type} (m : List (Addr × ν)) (k : Addr) (v : ν)
    (hft : (m.find? (fun q => q.1 == k)).isSome = true) :
    goLookup (m.map (fun q => if q.1 == k then (k, v) else q)) k = some v := by
  induction m with
  | nil => simp at hft
  | cons p t ih =>
    rw [List.map_cons]
    by_cases hpk : (p.1 == k) = true
    · rw [if_pos hpk, goLookup_cons]
      simp
    · rw [if_neg hpk, goLookup_cons, if_neg hpk]
      rw [show List.find? (fun q => q.1 == k) (p :: t) = List.find? (fun q => q.1 == k) t
        from by simp [List.find?_cons_of_neg, hpk]] at hft
      exact ih hft

/-- Lookups fall through a prefix in which they miss. -/
theorem goLookup_append_left_none {ν : Type} (m1 m2 : List (Addr × ν)) (k : Addr)
    (h : goLookup m1 k = none) : goLookup (m1 ++ m2) k = goLookup m2 k := by
  induction m1 with
  | nil => rfl
  | cons p t ih =>
    rw [goLookup_cons] at h
    rw [List.cons_append, goLookup_cons]
    by_cases hpk : (p.1 == k) = true
    · rw [if_pos hpk] at h; cases h
    · rw [if_neg hpk] at h
      rw [if_neg hpk]
      exact ih h

/-- Go map assignment then lookup of the same key returns the new value. -/
theorem goLookup_goInsert_self {ν : Type} (m : List (Addr × ν)) (k : Addr) (v : ν) :
    goLookup (goInsert m k v) k = some v := by
  rw [goInsert]
  by_cases hft : (m.find? (fun q => q.1 == k)).isSome = true
  · rw [if_pos hft]
    exact goLookup_mapReplace_self m k v hft
  · rw [if_neg hft]
    have hnone : goLookup m k = none := by
      rw [goLookup_eq_none]
      cases hx : m.find? (fun q => q.1 == k)
      · rfl
      · rw [hx] at hft; simp at hft
    rw [goLookup_append_left_none _ _ _ hnone, goLookup_cons]
    simp

/-- A found lookup is stable under appending. -/
theorem goLookup_append_left_some {ν : Type} (m1 m2 : List (Addr × ν)) (k : Addr) (v : ν)
    (h : goLookup m1 k = some v) : goLookup (m1 ++ m2) k = some v := by
  induction m1 with
  | nil => cases h
  | cons p t ih =>
    rw [goLookup_cons] at h
    rw [List.cons_append, goLookup_cons]
    by_cases hpk : (p.1 == k) = true
    · rw [if_pos hpk] at h ⊢; exact h
    · rw [if_neg hpk] at h ⊢; exact ih h

/-- Go map assignment leaves lookups of other keys unchanged. -/
theorem goLookup_goInsert_ne {ν : Type} (m : List (Addr × ν)) (k k' : Addr) (v : ν)
    (hne : k' ≠ k) : goLookup (goInsert m k v) k' = goLookup m k' := by
  rw [goInsert]
  by_cases hft : (m.find? (fun q => q.1 == k)).isSome = true
  · rw [if_pos hft]
    exact goLookup_mapReplace_ne m k k' v hne
  · rw [if_neg hft]
    cases hx : goLookup m k' with
    | none =>
      rw [goLookup_append_left_none _ _ _ hx, goLookup_cons]
      have hkk : (k == k') = false := by
        simp only [beq_eq_false_iff_ne, ne_eq]
        exact fun h => hne h.symm
      rw [hkk, if_neg (by simp)]
      rfl
    | some v' =>
      exact goLookup_append_left_some _ _ _ _ hx

/-! ### Theorems for claim C4 -/

/-- Reduction of the Prepare loop body in the untagged, correct-nonce case. -/
theorem processInfo_ok_case (entry : CtxAndAccounts) (info : PreparedInfo)
    (herr : info.errorStr = "")
    (heq : (goLookup entry.addr2nonce info.tx.from_).getD 0 = info.tx.nonce) :
    processInfoInPrepare entry info =
      (fun r => if r.2.2 then (r.1, r.2.1)
        else ({ r.1 with changed := true }, { r.2.1 with txBytes := some info.tx.ToBytes }))
      (deductGasFeeAndUpdateFrontier info.tx.from_ info
        { entry with addr2nonce := goInsert entry.addr2nonce info.tx.from_ (info.tx.nonce + 1) }) := by
  simp only [processInfoInPrepare]
  rw [if_neg (by simp [herr]), if_neg (by simp [heq]), heq]

/-- Claim C4 (amended): for an untagged transaction, a cached-nonce mismatch
tags `incorrect nonce` without incrementing the cached nonce; otherwise the
cached nonce is incremented and the fee `gas * gasPrice` (256-bit) is debited
from the sender's live balance; on insufficient live funds the cached balance
is zeroed and the transaction tagged; on success, `to == SEP206` forces the
cached balance to zero, a missing cached balance is seeded from the post-debit
live balance minus the transfer value, and an existing cached balance is
zeroed when it is below the fee, otherwise decreased by the fee and then
either decreased by the value or zeroed when the remainder is below the
value. -/
theorem c4_deduct_gas_fee_amended (entry : CtxAndAccounts) (info : PreparedInfo)
    (herr : info.errorStr = "") :
    ((goLookup entry.addr2nonce info.tx.from_).getD 0 ≠ info.tx.nonce →
      processInfoInPrepare entry info
        = (entry, { info with errorStr := "incorrect nonce" })) ∧
    ((goLookup entry.addr2nonce info.tx.from_).getD 0 = info.tx.nonce →
      (processInfoInPrepare entry info).1.addr2nonce
          = goInsert entry.addr2nonce info.tx.from_ (info.tx.nonce + 1) ∧
      (((GetAccount entry.ctx info.tx.from_).getD ZeroAccountInfo).balance
          < txGasFee info.tx →
        (processInfoInPrepare entry info).1.ctx = entry.ctx ∧
        goLookup (processInfoInPrepare entry info).1.addr2Balance info.tx.from_
          = some 0 ∧
        (processInfoInPrepare entry info).2.errorStr
          = "not enough balance to pay gasfee") ∧
      (txGasFee info.tx
          ≤ ((GetAccount entry.ctx info.tx.from_).getD ZeroAccountInfo).balance →
        (processInfoInPrepare entry info).1.ctx
          = SetAccount entry.ctx info.tx.from_
              { (GetAccount entry.ctx info.tx.from_).getD ZeroAccountInfo with
                balance := ((GetAccount entry.ctx info.tx.from_).getD
                    ZeroAccountInfo).balance - txGasFee info.tx } ∧
        (processInfoInPrepare entry info).2.errorStr = "" ∧
        (processInfoInPrepare entry info).1.totalGasFee
          = (entry.totalGasFee + txGasFee info.tx) % M256 ∧
        (info.tx.to_ = Sep206Address →
          goLookup (processInfoInPrepare entry info).1.addr2Balance info.tx.from_
            = some 0) ∧
        (info.tx.to_ ≠ Sep206Address →
          (goLookup entry.addr2Balance info.tx.from_ = none →
            goLookup (processInfoInPrepare entry info).1.addr2Balance info.tx.from_
              = some (GetBalanceAfterBchTransfer
                  (processInfoInPrepare entry info).1.ctx info.tx.from_
                  info.tx.value)) ∧
          (∀ c, goLookup entry.addr2Balance info.tx.from_ = some c →
            goLookup (processInfoInPrepare entry info).1.addr2Balance info.tx.from_
              = some (if c < txGasFee info.tx then 0
                  else if c - txGasFee info.tx < info.tx.value % M256 then 0
                  else c - txGasFee info.tx - info.tx.value % M256))))) := by
  constructor
  · intro hne
    simp only [processInfoInPrepare]
    rw [if_neg (by simp [herr]), if_pos hne]
  · intro heq
    rw [processInfo_ok_case entry info herr heq]
    by_cases hbal : ((GetAccount entry.ctx info.tx.from_).getD ZeroAccountInfo).balance
        < txGasFee info.tx
    · have hsub : SubSenderAccBalance entry.ctx info.tx.from_ (txGasFee info.tx)
          = Except.error "balance not enough" := by
        simp [SubSenderAccBalance, updateBalance, hbal]
      simp only [deductGasFeeAndUpdateFrontier, hsub]
      refine ⟨rfl, fun _ => ⟨rfl, goLookup_goInsert_self _ _ _, rfl⟩, fun hge => ?_⟩
      omega
    · have hge : txGasFee info.tx
          ≤ ((GetAccount entry.ctx info.tx.from_).getD ZeroAccountInfo).balance := by
        omega
      have hsub : SubSenderAccBalance entry.ctx info.tx.from_ (txGasFee info.tx)
          = Except.ok (SetAccount entry.ctx info.tx.from_
              { (GetAccount entry.ctx info.tx.from_).getD ZeroAccountInfo with
                balance := ((GetAccount entry.ctx info.tx.from_).getD
                    ZeroAccountInfo).balance - txGasFee info.tx }) := by
        simp [SubSenderAccBalance, updateBalance, hbal]
      simp only [deductGasFeeAndUpdateFrontier, hsub]
      refine ⟨rfl, fun hlt => absurd hlt (by omega),
        fun _ => ⟨rfl, by simp [herr], rfl, ?_, ?_⟩⟩
      · intro hsep
        simp only [if_pos hsep]
        exact goLookup_goInsert_self _ _ _
      · intro hnsep
        refine ⟨fun hnone => ?_, fun c hc => ?_⟩
        · simp only [if_neg hnsep, hnone]
          exact goLookup_goInsert_self _ _ _
        · simp only [if_neg hnsep, hc]
          by_cases h1 : c < txGasFee info.tx
          · simp only [if_pos h1]
            exact goLookup_goInsert_self _ _ _
          · by_cases h2 : c - txGasFee info.tx < info.tx.value % M256
            · simp only [if_neg h1, if_pos h2]
              exact goLookup_goInsert_self _ _ _
            · simp only [if_neg h1, if_neg h2]
              exact goLookup_goInsert_self _ _ _

set_option maxRecDepth 4000

/-- Counterexample to claim C4 as stated: with cached pending balance 5, fee
10 and value 0 (live balance 90, so the debit succeeds), the code forces the
cached balance to 0, while \"subtracting the fee from the cached balance\"
(256-bit wrapping) followed by the value step would give `2^256 - 5`. -/
theorem c4_claim_counterexample :
    goLookup (processInfoInPrepare c4demoEntry c4demoInfo).1.addr2Balance 1 = some 0 ∧
    c4ClaimCachedUpdate 5 (txGasFee c4demoInfo.tx) c4demoInfo.tx.value ≠ 0 := by
  constructor
  · rfl
  · decide

/-- Witness for claim C4 (amended) at the counterexample input: the
successful-debit branch with an existing cached balance below the fee. -/
theorem c4_deduct_gas_fee_amended_witness :
    goLookup (processInfoInPrepare c4demoEntry c4demoInfo).1.addr2Balance 1
      = some 0 := by
  have h := ((((c4_deduct_gas_fee_amended c4demoEntry c4demoInfo rfl).2
    (by decide)).2.2 (by decide)).2.2.2.2 (by decide)).2 5 (by decide)
  have h2 : goLookup (processInfoInPrepare c4demoEntry c4demoInfo).1.addr2Balance
      c4demoInfo.tx.from_ = some 0 := by
    rw [h]; decide
  exact h2

/-! ### Theorems for claims C5, C8 and C6 -/

/-- The first scan refuses to commit exactly when some recorded key's
fingerprint is already touched. -/
theorem scanConflict_eq_false_iff (touched : List Nat) :
    ∀ ks : List (List Nat × Bool),
      scanConflict touched ks = false ↔ ∃ kd ∈ ks, keyFp64 kd.1 ∈ touched := by
  intro ks
  induction ks with
  | nil => simp [scanConflict]
  | cons kd rest ih =>
    rw [scanConflict]
    by_cases h : keyFp64 kd.1 ∈ touched
    · rw [if_pos h]
      constructor
      · intro _; exact ⟨kd, List.mem_cons_self _ _, h⟩
      · intro _; rfl
    · rw [if_neg h, ih]
      constructor
      · rintro ⟨kd', h1, h2⟩
        exact ⟨kd', List.mem_cons_of_mem _ h1, h2⟩
      · rintro ⟨kd', h1, h2⟩
        rcases List.mem_cons.mp h1 with h1 | h1
        · subst h1; exact absurd h2 h
        · exact ⟨kd', h1, h2⟩

/-- Membership after a Go set insertion. -/
theorem setInsert_mem (s : List Nat) (k k' : Nat) :
    k' ∈ setInsert s k ↔ k' ∈ s ∨ k' = k := by
  rw [setInsert]
  by_cases h : k ∈ s
  · rw [if_pos h]
    constructor
    · intro h'; exact Or.inl h'
    · rintro (h' | h')
      · exact h'
      · subst h'; exact h
  · rw [if_neg h]
    simp [List.mem_append]

/-- Membership after the dirty-fingerprint insertion scan. -/
theorem insertDirtyFps_mem :
    ∀ (ks : List (List Nat × Bool)) (touched : List Nat) (k : Nat),
      k ∈ insertDirtyFps touched ks ↔
        k ∈ touched ∨ ∃ kd ∈ ks, kd.2 = true ∧ keyFp64 kd.1 = k := by
  intro ks
  induction ks with
  | nil => intro t k; simp [insertDirtyFps]
  | cons kd rest ih =>
    intro t k
    rw [insertDirtyFps]
    by_cases hd : kd.2 = true
    · rw [if_pos hd, ih, setInsert_mem]
      constructor
      · rintro ((h | h) | ⟨kd', h1, h2, h3⟩)
        · exact Or.inl h
        · exact Or.inr ⟨kd, List.mem_cons_self _ _, hd, h.symm⟩
        · exact Or.inr ⟨kd', List.mem_cons_of_mem _ h1, h2, h3⟩
      · rintro (h | ⟨kd', h1, h2, h3⟩)
        · exact Or.inl (Or.inl h)
        · rcases List.mem_cons.mp h1 with h1 | h1
          · subst h1; exact Or.inl (Or.inr h3.symm)
          · exact Or.inr ⟨kd', h1, h2, h3⟩
    · rw [if_neg hd, ih]
      constructor
      · rintro (h | ⟨kd', h1, h2, h3⟩)
        · exact Or.inl h
        · exact Or.inr ⟨kd', List.mem_cons_of_mem _ h1, h2, h3⟩
      · rintro (h | ⟨kd', h1, h2, h3⟩)
        · exact Or.inl h
        · rcases List.mem_cons.mp h1 with h1 | h1
          · subst h1; exact absurd h2 hd
          · exact Or.inr ⟨kd', h1, h2, h3⟩

/-- Claim C5: the conflict resolver refuses to commit a slot exactly when
some short key recorded in the runner's context (clean or dirty) has its
64-bit fingerprint already in the touched set, in which case (and only then)
the runner is marked `FAILED_TO_COMMIT`; a committable slot contributes to
the touched set exactly the fingerprints of its dirty keys, never those of
clean reads. -/
theorem c5_conflict_scan (touched : List Nat) (runner : TxRunner) :
    ((resolveSlot touched runner).2.1 = false ↔
      ∃ kd ∈ runner.ctxKeys, keyFp64 kd.1 ∈ touched) ∧
    (resolveSlot touched runner).1
      = (if (resolveSlot touched runner).2.1 = true then runner
        else { runner with status := Status.FAILED_TO_COMMIT }) ∧
    (∀ k, k ∈ (resolveSlot touched runner).2.2 ↔
      k ∈ touched ∨ ((resolveSlot touched runner).2.1 = true ∧
        ∃ kd ∈ runner.ctxKeys, kd.2 = true ∧ keyFp64 kd.1 = k)) := by
  refine ⟨?_, ?_, ?_⟩
  · simp only [resolveSlot]
    exact scanConflict_eq_false_iff touched runner.ctxKeys
  · cases h : scanConflict touched runner.ctxKeys <;>
      simp [resolveSlot, h]
  · intro k
    cases h : scanConflict touched runner.ctxKeys
    · simp [resolveSlot, h]
    · simp [resolveSlot, h, insertDirtyFps_mem]

/-- The slot-assignment fold keeps the array length. -/
theorem foldl_set_length {α : Type} (f : Nat → α) :
    ∀ (idxs : List Nat) (init : List (Option α)),
      (idxs.foldl (fun rs j => rs.set j (some (f j))) init).length = init.length := by
  intro idxs
  induction idxs with
  | nil => intro init; rfl
  | cons i rest ih =>
    intro init
    rw [List.foldl_cons, ih, List.length_set]

/-- Each slot of the assignment fold over `range n` holds its own value. -/
theorem foldl_set_range_getD {α : Type} (f : Nat → α) :
    ∀ (n : Nat) (init : List (Option α)), n ≤ init.length →
      ∀ i, i < n →
        ((List.range n).foldl (fun rs j => rs.set j (some (f j))) init).getD i none
          = some (f i) := by
  intro n
  induction n with
  | zero => intro init _ i hi; exact absurd hi (Nat.not_lt_zero i)
  | succ n ih =>
    intro init hlen i hi
    rw [List.range_succ, List.foldl_append, List.foldl_cons, List.foldl_nil]
    have hflen : ((List.range n).foldl (fun rs j => rs.set j (some (f j))) init).length
        = init.length := foldl_set_length f _ init
    by_cases hin : i = n
    · subst hin
      rw [List.getD_eq_getElem?_getD, List.getElem?_set_self (by omega)]
      rfl
    · have hi' : i < n := by omega
      rw [List.getD_eq_getElem?_getD, List.getElem?_set_ne (fun h => hin h.symm),
        ← List.getD_eq_getElem?_getD]
      exact ih init (by omega) i hi'

/-- Claim C8: during a round's parallel execution, a bundle slot whose
predecessor has the same sender receives the forced `TX_NONCE_TOO_LARGE`
runner without `runTx` being invoked (the slot's value does not depend on
the `runTx` collaborator), and every other slot receives exactly the
collaborator's result. -/
theorem c8_same_sender_forced (runTxF : TxToRun → TxRunner)
    (txBundle : List TxToRun) (i : Nat) (hi : i < txBundle.length) :
    (runTxInParallel runTxF txBundle).getD i none
      = some (if 0 < i ∧ (txBundle.getD (i - 1) dummyTx).from_
              = (txBundle.getD i dummyTx).from_ then
          mkNonceTooLargeRunner (txBundle.getD i dummyTx)
        else runTxF (txBundle.getD i dummyTx)) := by
  rw [runTxInParallel]
  exact foldl_set_range_getD
    (fun j => if 0 < j ∧ (txBundle.getD (j - 1) dummyTx).from_
          = (txBundle.getD j dummyTx).from_ then
        mkNonceTooLargeRunner (txBundle.getD j dummyTx)
      else runTxF (txBundle.getD j dummyTx))
    txBundle.length (List.replicate txBundle.length none)
    (by rw [List.length_replicate]) i hi

/-- Witness for claim C8: with two same-sender transactions in the bundle,
slot 1 is forced to `TX_NONCE_TOO_LARGE` and slot 0 runs normally. -/
theorem c8_same_sender_forced_witness :
    (runTxInParallel c8demoRunTx [c8demoTxA, c8demoTxB]).getD 1 none
      = some (mkNonceTooLargeRunner c8demoTxB) ∧
    (runTxInParallel c8demoRunTx [c8demoTxA, c8demoTxB]).getD 0 none
      = some (c8demoRunTx c8demoTxA) := by
  constructor
  · rw [c8_same_sender_forced c8demoRunTx [c8demoTxA, c8demoTxB] 1 (by decide)]
    decide
  · rw [c8_same_sender_forced c8demoRunTx [c8demoTxA, c8demoTxB] 0 (by decide)]
    decide

/-- A retryable status is never a dropped status. -/
theorem retry_not_dropped (s : Status) (h : isRetry s = true) : isDropped s = false := by
  cases s <;> revert h <;> decide

/-- Full characterization of the post-round trunk-update fold. -/
theorem updStandby_foldl (runners : List TxRunner) :
    ∀ (s e g f : Nat) (ops : List StoreOp) (comm : List TxRunner),
      g < M64 → f < M256 →
      runners.foldl updStandbyStep ⟨s, e, ops, g, f, comm⟩
        = ⟨s + runners.length,
           e + (runners.filter (fun r => isRetry r.status)).length,
           ops ++ roundOpsSpec s e runners,
           (g + droppedGasSum runners) % M64,
           (f + droppedFeeSum runners) % M256,
           comm ++ runners.filter (fun r => !isRetry r.status && !isDropped r.status)⟩ := by
  induction runners with
  | nil =>
    intro s e g f ops comm hg hf
    simp [roundOpsSpec, droppedGasSum, droppedFeeSum,
      Nat.mod_eq_of_lt hg, Nat.mod_eq_of_lt hf]
  | cons r rest ih =>
    intro s e g f ops comm hg hf
    rw [List.foldl_cons]
    by_cases hr : isRetry r.status = true
    · rw [show updStandbyStep ⟨s, e, ops, g, f, comm⟩ r
          = ⟨s + 1, e + 1, ops ++ [StoreOp.del s] ++ [StoreOp.set e r.tx.ToBytes],
             g, f, comm⟩ from by simp [updStandbyStep, hr]]
      rw [ih (s + 1) (e + 1) g f _ comm hg hf]
      simp only [RoundUpdState.mk.injEq]
      refine ⟨by simp only [List.length_cons]; omega, ?_, ?_, ?_, ?_, ?_⟩
      · rw [List.filter_cons, if_pos (by simp [hr])]
        simp only [List.length_cons]; omega
      · rw [roundOpsSpec, if_pos hr]
        simp [List.append_assoc]
      · rw [show droppedGasSum (r :: rest) = droppedGasSum rest from by
          simp [droppedGasSum, List.filter_cons, retry_not_dropped _ hr]]
      · rw [show droppedFeeSum (r :: rest) = droppedFeeSum rest from by
          simp [droppedFeeSum, List.filter_cons, retry_not_dropped _ hr]]
      · rw [List.filter_cons, if_neg (by simp [hr])]
    · by_cases hd : isDropped r.status = true
      · rw [show updStandbyStep ⟨s, e, ops, g, f, comm⟩ r
            = ⟨s + 1, e, ops ++ [StoreOp.del s],
               (g + r.tx.gas) % M64, (f + r.GetGasFee) % M256, comm⟩ from by
          simp [updStandbyStep, hr, hd]]
        rw [ih (s + 1) e ((g + r.tx.gas) % M64) ((f + r.GetGasFee) % M256) _ comm
          (Nat.mod_lt _ (by decide)) (Nat.mod_lt _ (by decide))]
        simp only [RoundUpdState.mk.injEq]
        refine ⟨by simp only [List.length_cons]; omega, ?_, ?_, ?_, ?_, ?_⟩
        · rw [List.filter_cons, if_neg (by simp [hr])]
        · rw [roundOpsSpec, if_neg hr]
          simp [List.append_assoc]
        · rw [show droppedGasSum (r :: rest) = r.tx.gas + droppedGasSum rest from by
            simp [droppedGasSum, List.filter_cons, hd]]
          rw [Nat.mod_add_mod, Nat.add_assoc]
        · rw [show droppedFeeSum (r :: rest) = r.GetGasFee + droppedFeeSum rest from by
            simp [droppedFeeSum, List.filter_cons, hd]]
          rw [Nat.mod_add_mod, Nat.add_assoc]
        · rw [List.filter_cons, if_neg (by simp [hr, hd])]
      · rw [show updStandbyStep ⟨s, e, ops, g, f, comm⟩ r
            = ⟨s + 1, e, ops ++ [StoreOp.del s], g, f, comm ++ [r]⟩ from by
          simp [updStandbyStep, hr, hd]]
        rw [ih (s + 1) e g f _ (comm ++ [r]) hg hf]
        simp only [RoundUpdState.mk.injEq]
        refine ⟨by simp only [List.length_cons]; omega, ?_, ?_, ?_, ?_, ?_⟩
        · rw [List.filter_cons, if_neg (by simp [hr])]
        · rw [roundOpsSpec, if_neg hr]
          simp [List.append_assoc]
        · rw [show droppedGasSum (r :: rest) = droppedGasSum rest from by
            simp [droppedGasSum, List.filter_cons, hd]]
        · rw [show droppedFeeSum (r :: rest) = droppedFeeSum rest from by
            simp [droppedFeeSum, List.filter_cons, hd]]
        · rw [List.filter_cons, if_pos (by simp [hr, hd])]
          simp [List.append_assoc]

/-- Claim C6: the post-round trunk update deletes each slot's queue key and
advances `start` once per slot; a `FAILED_TO_COMMIT` or `TX_NONCE_TOO_LARGE`
runner has its transaction bytes rewritten to `standby(end)` with `end`
advanced and is excluded from the committable list; an `ACCOUNT_NOT_EXIST`
or `TX_NONCE_TOO_SMALL` runner is dropped with its full gas added to
`cumulativeGasUsed` and its gas fee to `cumulativeGasFee`; all other
runners stay committable, in slot order. -/
theorem c6_post_round_update (start0 end0 g0 f0 : Nat) (runners : List TxRunner)
    (hg : g0 < M64) (hf : f0 < M256) :
    checkTxDepsUpdateQueue start0 end0 g0 f0 runners
      = ⟨start0 + runners.length,
         end0 + (runners.filter (fun r => isRetry r.status)).length,
         roundOpsSpec start0 end0 runners,
         (g0 + droppedGasSum runners) % M64,
         (f0 + droppedFeeSum runners) % M256,
         runners.filter (fun r => !isRetry r.status && !isDropped r.status)⟩ := by
  rw [checkTxDepsUpdateQueue, updStandby_foldl runners start0 end0 g0 f0 [] [] hg hf]
  simp

/-- Witness for claim C6 on a three-runner round (one retry, one drop, one
success) starting from range `[2, 5)`. -/
theorem c6_post_round_update_witness :
    checkTxDepsUpdateQueue 2 5 0 0 [c6demoRetry, c6demoDrop, c6demoKeep]
      = ⟨5, 6,
         [StoreOp.del 2, StoreOp.set 5 c6demoRetry.tx.ToBytes,
          StoreOp.del 3, StoreOp.del 4],
         7, 14, [c6demoKeep]⟩ := by
  rw [c6_post_round_update 2 5 0 0 [c6demoRetry, c6demoDrop, c6demoKeep]
    (by decide) (by decide)]
  decide

/-! ### Lemmas for claim C7 -/

/-- Weighted sums distribute over cons. -/
theorem wtSum_cons (wt : Addr × Account → Nat) (p : Addr × Account)
    (m : List (Addr × Account)) :
    wtSum wt (p :: m) = wt p + wtSum wt m := by
  simp [wtSum]

/-- Replacing the unique binding of a present key shifts a weighted sum by
the weight difference. -/
theorem wtSum_mapReplace (wt : Addr × Account → Nat) (k : Addr) (acc' : Account) :
    ∀ (m : List (Addr × Account)) (acc : Account),
      (m.map Prod.fst).Nodup → goLookup m k = some acc →
      wtSum wt (m.map (fun q => if q.1 == k then (k, acc') else q)) + wt (k, acc)
        = wtSum wt m + wt (k, acc') := by
  intro m
  induction m with
  | nil => intro acc _ hl; cases hl
  | cons p t ih =>
    intro acc hnd hl
    have hnd2 : p.1 ∉ t.map Prod.fst ∧ (t.map Prod.fst).Nodup := by
      rw [List.map_cons] at hnd
      exact List.nodup_cons.mp hnd
    rw [goLookup_cons] at hl
    rw [List.map_cons]
    by_cases hpk : (p.1 == k) = true
    · have hk : p.1 = k := by simpa using hpk
      rw [if_pos hpk] at hl
      have hacc : p.2 = acc := Option.some.inj hl
      have hp_eq : p = (k, acc) := by
        rw [← hk, ← hacc]
      have hmap : t.map (fun q => if q.1 == k then (k, acc') else q) = t := by
        have h1 : t.map (fun q => if q.1 == k then (k, acc') else q) = t.map id :=
          List.map_congr_left (fun q hq => by
            have hqke : (q.1 == k) = false := by
              simp only [beq_eq_false_iff_ne, ne_eq]
              intro hqk
              apply hnd2.1
              rw [hk, ← hqk]
              exact List.mem_map_of_mem Prod.fst hq
            simp [hqke])
        rw [h1, List.map_id]
      rw [if_pos hpk, hmap, wtSum_cons, wtSum_cons, hp_eq]
      omega
    · rw [if_neg hpk] at hl
      rw [if_neg hpk, wtSum_cons, wtSum_cons]
      have := ih acc hnd2.2 hl
      omega

/-- Weighted sum after assigning a present key. -/
theorem wtSum_goInsert_present (wt : Addr × Account → Nat)
    (m : List (Addr × Account)) (k : Addr) (acc acc' : Account)
    (hnd : (m.map Prod.fst).Nodup) (hl : goLookup m k = some acc) :
    wtSum wt (goInsert m k acc') + wt (k, acc) = wtSum wt m + wt (k, acc') := by
  have hfind : (m.find? (fun q => q.1 == k)).isSome = true := by
    cases hx : m.find? (fun q => q.1 == k)
    · simp [goLookup, hx] at hl
    · rfl
  rw [goInsert, if_pos hfind]
  exact wtSum_mapReplace wt k acc' m acc hnd hl

/-- Weighted sum after assigning an absent key. -/
theorem wtSum_goInsert_absent (wt : Addr × Account → Nat)
    (m : List (Addr × Account)) (k : Addr) (acc' : Account)
    (hl : goLookup m k = none) :
    wtSum wt (goInsert m k acc') = wtSum wt m + wt (k, acc') := by
  have hfind : (m.find? (fun q => q.1 == k)).isSome = false := by
    cases hx : m.find? (fun q => q.1 == k)
    · rfl
    · simp [goLookup, hx] at hl
  rw [goInsert, if_neg (by simp [hfind])]
  simp [wtSum]

/-- Go map assignment keeps the keys duplicate-free. -/
theorem keys_goInsert_nodup (m : List (Addr × Account)) (k : Addr) (v : Account)
    (hnd : (m.map Prod.fst).Nodup) : ((goInsert m k v).map Prod.fst).Nodup := by
  rw [goInsert]
  by_cases hft : (m.find? (fun q => q.1 == k)).isSome = true
  · rw [if_pos hft]
    have hkeys : (m.map (fun q => if q.1 == k then (k, v) else q)).map Prod.fst
        = m.map Prod.fst := by
      rw [List.map_map]
      apply List.map_congr_left
      intro q _
      by_cases hqk : (q.1 == k) = true
      · have hq : q.1 = k := by simpa using hqk
        simp [Function.comp, hqk, hq]
      · simp [Function.comp, hqk]
    rw [hkeys]
    exact hnd
  · rw [if_neg hft]
    have hmem : k ∉ m.map Prod.fst := by
      intro hk
      rcases List.mem_map.mp hk with ⟨q, hq, hqk⟩
      apply hft
      rw [List.find?_isSome]
      exact ⟨q, hq, by simp [hqk]⟩
    rw [List.map_append]
    exact ((List.perm_append_singleton _ _).symm).nodup
      (List.nodup_cons.mpr ⟨hmem, hnd⟩)

/-- The balance an address answers is at most the total of all balances. -/
theorem goLookup_balance_le (m : List (Addr × Account)) (k : Addr) :
    ((goLookup m k).getD ZeroAccountInfo).balance
      ≤ (m.map (fun p => p.2.balance)).sum := by
  induction m with
  | nil => simp [goLookup, ZeroAccountInfo]
  | cons p t ih =>
    rw [goLookup_cons]
    by_cases hpk : (p.1 == k) = true
    · rw [if_pos hpk]
      simp only [Option.getD_some, List.map_cons, List.sum_cons]
      omega
    · rw [if_neg hpk]
      simp only [List.map_cons, List.sum_cons]
      omega

/-- `sumBalances` as a weighted sum. -/
theorem sumBalances_eq_wtSum (ctx : Context) :
    sumBalances ctx = wtSum (fun p => p.2.balance) ctx.accounts := rfl

/-- `sumBalancesExcept` as a weighted sum. -/
theorem sumBalancesExcept_eq_wtSum (ctx : Context) (a : Addr) :
    sumBalancesExcept ctx a
      = wtSum (fun p => if p.1 == a then 0 else p.2.balance) ctx.accounts := rfl

/-- Gas-fee sums distribute over cons. -/
theorem infoFeeSum_cons (x : PreparedInfo) (l : List PreparedInfo) :
    infoFeeSum (x :: l) = txGasFee x.tx + infoFeeSum l := by
  simp [infoFeeSum]

/-- Accepted-fee sums distribute over cons, weighting the head by its tag. -/
theorem acceptedFeeSum_cons (x : PreparedInfo) (l : List PreparedInfo) :
    acceptedFeeSum (x :: l)
      = (if x.errorStr = "" then txGasFee x.tx else 0) + acceptedFeeSum l := by
  rw [acceptedFeeSum, acceptedFeeSum, List.filter_cons]
  by_cases h : x.errorStr = ""
  · rw [if_pos (by simpa using h), if_pos h, infoFeeSum_cons]
  · rw [if_neg (by simpa using h), if_neg h]
    simp

/-- Accepted-fee sums distribute over append. -/
theorem acceptedFeeSum_append (l1 l2 : List PreparedInfo) :
    acceptedFeeSum (l1 ++ l2) = acceptedFeeSum l1 + acceptedFeeSum l2 := by
  simp [acceptedFeeSum, infoFeeSum, List.filter_append]

/-- Balance-sum effects of one Prepare loop iteration: an accepted info
debits exactly its fee from the sender (leaving the system account alone),
a rejected info leaves the context and the accumulated fee unchanged. -/
theorem processInfo_sum_effects (entry : CtxAndAccounts) (info : PreparedInfo)
    (hnd : (entry.ctx.accounts.map Prod.fst).Nodup)
    (hsys : info.tx.from_ ≠ systemContractAddress) :
    ((processInfoInPrepare entry info).2.errorStr = "" →
        info.errorStr = "" ∧
        (processInfoInPrepare entry info).1.totalGasFee
          = (entry.totalGasFee + txGasFee info.tx) % M256 ∧
        sumBalances (processInfoInPrepare entry info).1.ctx + txGasFee info.tx
          = sumBalances entry.ctx ∧
        sumBalancesExcept (processInfoInPrepare entry info).1.ctx
            systemContractAddress + txGasFee info.tx
          = sumBalancesExcept entry.ctx systemContractAddress ∧
        GetSystemBalance (processInfoInPrepare entry info).1.ctx
          = GetSystemBalance entry.ctx) ∧
    ((processInfoInPrepare entry info).2.errorStr ≠ "" →
        (processInfoInPrepare entry info).1.ctx = entry.ctx ∧
        (processInfoInPrepare entry info).1.totalGasFee = entry.totalGasFee) ∧
    (processInfoInPrepare entry info).2.tx = info.tx ∧
    (((processInfoInPrepare entry info).1.ctx.accounts.map Prod.fst).Nodup) := by
  by_cases herr : info.errorStr = ""
  · by_cases hne : (goLookup entry.addr2nonce info.tx.from_).getD 0 ≠ info.tx.nonce
    · have hred : processInfoInPrepare entry info
          = (entry, { info with errorStr := "incorrect nonce" }) := by
        rw [processInfoInPrepare, if_neg (by simp [herr]), if_pos hne]
      rw [hred]
      exact ⟨fun h => by simp at h, fun _ => ⟨rfl, rfl⟩, rfl, hnd⟩
    · have heq : (goLookup entry.addr2nonce info.tx.from_).getD 0 = info.tx.nonce :=
        not_not.mp hne
      by_cases hbal : ((GetAccount entry.ctx info.tx.from_).getD ZeroAccountInfo).balance
          < txGasFee info.tx
      · have hsub : SubSenderAccBalance entry.ctx info.tx.from_ (txGasFee info.tx)
            = Except.error "balance not enough" := by
          simp [SubSenderAccBalance, updateBalance, hbal]
        rw [processInfo_ok_case entry info herr heq]
        simp only [deductGasFeeAndUpdateFrontier, hsub]
        exact ⟨fun h => by simp at h, fun _ => ⟨rfl, rfl⟩, rfl, hnd⟩
      · have hge : txGasFee info.tx
            ≤ ((GetAccount entry.ctx info.tx.from_).getD ZeroAccountInfo).balance := by
          omega
        cases hacc : GetAccount entry.ctx info.tx.from_ with
        | none =>
          have hacc' : goLookup entry.ctx.accounts info.tx.from_ = none := hacc
          have hfee0 : txGasFee info.tx = 0 := by
            rw [hacc] at hge
            simpa [ZeroAccountInfo] using hge
          have hsub : SubSenderAccBalance entry.ctx info.tx.from_ (txGasFee info.tx)
              = Except.ok ⟨goInsert entry.ctx.accounts info.tx.from_ ⟨0, 0⟩⟩ := by
            simp [SubSenderAccBalance, updateBalance, GetAccount, SetAccount,
              hacc', ZeroAccountInfo, hfee0]
          have hctx : (processInfoInPrepare entry info).1.ctx.accounts
              = goInsert entry.ctx.accounts info.tx.from_ ⟨0, 0⟩ := by
            rw [processInfo_ok_case entry info herr heq]
            simp [deductGasFeeAndUpdateFrontier, hsub]
          have hfee : (processInfoInPrepare entry info).1.totalGasFee
              = (entry.totalGasFee + txGasFee info.tx) % M256 := by
            rw [processInfo_ok_case entry info herr heq]
            simp [deductGasFeeAndUpdateFrontier, hsub]
          have hout : (processInfoInPrepare entry info).2
              = { info with txBytes := some info.tx.ToBytes } := by
            rw [processInfo_ok_case entry info herr heq]
            simp [deductGasFeeAndUpdateFrontier, hsub]
          refine ⟨fun _ => ⟨herr, hfee, ?_, ?_, ?_⟩, fun h => ?_, by rw [hout], ?_⟩
          · rw [sumBalances_eq_wtSum, sumBalances_eq_wtSum, hctx,
              wtSum_goInsert_absent _ _ _ _ hacc', hfee0]
            simp
          · rw [sumBalancesExcept_eq_wtSum, sumBalancesExcept_eq_wtSum, hctx,
              wtSum_goInsert_absent _ _ _ _ hacc', hfee0]
            simp
          · rw [GetSystemBalance, GetSystemBalance, GetAccount, GetAccount, hctx]
            rw [goLookup_goInsert_ne _ _ _ _ (fun h => hsys h.symm)]
          · rw [hout] at h
            exact absurd herr h
          · rw [hctx]
            exact keys_goInsert_nodup _ _ _ hnd
        | some a0 =>
          have hacc' : goLookup entry.ctx.accounts info.tx.from_ = some a0 := hacc
          have hge0 : txGasFee info.tx ≤ a0.balance := by
            rw [hacc] at hge
            simpa using hge
          have hsub : SubSenderAccBalance entry.ctx info.tx.from_ (txGasFee info.tx)
              = Except.ok ⟨goInsert entry.ctx.accounts info.tx.from_
                  ⟨a0.nonce, a0.balance - txGasFee info.tx⟩⟩ := by
            simp [SubSenderAccBalance, updateBalance, GetAccount, SetAccount, hacc']
            omega
          have hctx : (processInfoInPrepare entry info).1.ctx.accounts
              = goInsert entry.ctx.accounts info.tx.from_
                  ⟨a0.nonce, a0.balance - txGasFee info.tx⟩ := by
            rw [processInfo_ok_case entry info herr heq]
            simp [deductGasFeeAndUpdateFrontier, hsub]
          have hfee : (processInfoInPrepare entry info).1.totalGasFee
              = (entry.totalGasFee + txGasFee info.tx) % M256 := by
            rw [processInfo_ok_case entry info herr heq]
            simp [deductGasFeeAndUpdateFrontier, hsub]
          have hout : (processInfoInPrepare entry info).2
              = { info with txBytes := some info.tx.ToBytes } := by
            rw [processInfo_ok_case entry info herr heq]
            simp [deductGasFeeAndUpdateFrontier, hsub]
          refine ⟨fun _ => ⟨herr, hfee, ?_, ?_, ?_⟩, fun h => ?_, by rw [hout], ?_⟩
          · rw [sumBalances_eq_wtSum, sumBalances_eq_wtSum, hctx]
            have := wtSum_goInsert_present (fun p => p.2.balance)
              entry.ctx.accounts info.tx.from_ a0
              ⟨a0.nonce, a0.balance - txGasFee info.tx⟩ hnd hacc'
            simp only at this
            omega
          · rw [sumBalancesExcept_eq_wtSum, sumBalancesExcept_eq_wtSum, hctx]
            have := wtSum_goInsert_present
              (fun p => if p.1 == systemContractAddress then 0 else p.2.balance)
              entry.ctx.accounts info.tx.from_ a0
              ⟨a0.nonce, a0.balance - txGasFee info.tx⟩ hnd hacc'
            have hbeqf : (info.tx.from_ == systemContractAddress) = false := by
              simp only [beq_eq_false_iff_ne, ne_eq]
              exact hsys
            have hw1 : (fun p : Addr × Account =>
                if p.1 == systemContractAddress then 0 else p.2.balance)
                (info.tx.from_, a0) = a0.balance := by simp [hbeqf]
            have hw2 : (fun p : Addr × Account =>
                if p.1 == systemContractAddress then 0 else p.2.balance)
                (info.tx.from_, ⟨a0.nonce, a0.balance - txGasFee info.tx⟩)
                = a0.balance - txGasFee info.tx := by simp [hbeqf]
            rw [hw1, hw2] at this
            omega
          · rw [GetSystemBalance, GetSystemBalance, GetAccount, GetAccount, hctx]
            rw [goLookup_goInsert_ne _ _ _ _ (fun h => hsys h.symm)]
          · rw [hout] at h
            exact absurd herr h
          · rw [hctx]
            exact keys_goInsert_nodup _ _ _ hnd
  · have hred : processInfoInPrepare entry info = (entry, info) := by
      rw [processInfoInPrepare, if_pos herr]
    rw [hred]
    exact ⟨fun h => absurd h herr, fun _ => ⟨rfl, rfl⟩, rfl, hnd⟩

/-- Aggregated balance effects of one Prepare worker's run: the accumulated
fee equals the accepted infos' fees, which were debited from the senders,
with the system account untouched. -/
theorem prepWorkerRun_sums (infos : List PreparedInfo) :
    ∀ entry : CtxAndAccounts,
      (entry.ctx.accounts.map Prod.fst).Nodup →
      (∀ i ∈ infos, i.tx.from_ ≠ systemContractAddress) →
      entry.totalGasFee + infoFeeSum infos < M256 →
      (prepWorkerRun entry infos).1.totalGasFee
          = entry.totalGasFee + acceptedFeeSum (prepWorkerRun entry infos).2 ∧
      acceptedFeeSum (prepWorkerRun entry infos).2 ≤ infoFeeSum infos ∧
      sumBalances (prepWorkerRun entry infos).1.ctx
          + acceptedFeeSum (prepWorkerRun entry infos).2 = sumBalances entry.ctx ∧
      sumBalancesExcept (prepWorkerRun entry infos).1.ctx systemContractAddress
          + acceptedFeeSum (prepWorkerRun entry infos).2
        = sumBalancesExcept entry.ctx systemContractAddress ∧
      GetSystemBalance (prepWorkerRun entry infos).1.ctx
          = GetSystemBalance entry.ctx ∧
      (((prepWorkerRun entry infos).1.ctx.accounts.map Prod.fst).Nodup) := by
  induction infos with
  | nil =>
    intro entry hnd _ _
    exact ⟨by simp [prepWorkerRun, acceptedFeeSum, infoFeeSum],
      by simp [prepWorkerRun, acceptedFeeSum, infoFeeSum],
      by simp [prepWorkerRun, acceptedFeeSum, infoFeeSum],
      by simp [prepWorkerRun, acceptedFeeSum, infoFeeSum], rfl, hnd⟩
  | cons info rest ih =>
    intro entry hnd hsys hb
    have hsys0 : info.tx.from_ ≠ systemContractAddress :=
      hsys info (List.mem_cons_self _ _)
    obtain ⟨hok, hrej, htx, hnd'⟩ := processInfo_sum_effects entry info hnd hsys0
    have hunf : prepWorkerRun entry (info :: rest)
        = ((prepWorkerRun (processInfoInPrepare entry info).1 rest).1,
           (processInfoInPrepare entry info).2
             :: (prepWorkerRun (processInfoInPrepare entry info).1 rest).2) := rfl
    rw [hunf]
    dsimp only
    have hic := infoFeeSum_cons info rest
    by_cases hacc : (processInfoInPrepare entry info).2.errorStr = ""
    · obtain ⟨ha, hfee, hsum, hexc, hsysb⟩ := hok hacc
      have hmodid : (entry.totalGasFee + txGasFee info.tx) % M256
          = entry.totalGasFee + txGasFee info.tx := by
        apply Nat.mod_eq_of_lt
        omega
      have hb' : (processInfoInPrepare entry info).1.totalGasFee + infoFeeSum rest
          < M256 := by
        rw [hfee, hmodid]
        omega
      obtain ⟨i1, i2, i3, i4, i5, i6⟩ := ih (processInfoInPrepare entry info).1 hnd'
        (fun i hi => hsys i (List.mem_cons_of_mem _ hi)) hb'
      have hafs : acceptedFeeSum ((processInfoInPrepare entry info).2
            :: (prepWorkerRun (processInfoInPrepare entry info).1 rest).2)
          = txGasFee info.tx
            + acceptedFeeSum
                (prepWorkerRun (processInfoInPrepare entry info).1 rest).2 := by
        rw [acceptedFeeSum_cons, htx, if_pos hacc]
      refine ⟨?_, ?_, ?_, ?_, ?_, i6⟩
      · rw [hafs, i1, hfee, hmodid]
        omega
      · rw [hafs, hic]
        omega
      · rw [hafs]
        omega
      · rw [hafs]
        omega
      · rw [i5, hsysb]
    · obtain ⟨hctxu, hfeeu⟩ := hrej hacc
      have hb' : (processInfoInPrepare entry info).1.totalGasFee + infoFeeSum rest
          < M256 := by
        rw [hfeeu]
        omega
      obtain ⟨i1, i2, i3, i4, i5, i6⟩ := ih (processInfoInPrepare entry info).1 hnd'
        (fun i hi => hsys i (List.mem_cons_of_mem _ hi)) hb'
      have hafs : acceptedFeeSum ((processInfoInPrepare entry info).2
            :: (prepWorkerRun (processInfoInPrepare entry info).1 rest).2)
          = acceptedFeeSum
              (prepWorkerRun (processInfoInPrepare entry info).1 rest).2 := by
        rw [acceptedFeeSum_cons, if_neg hacc]
        simp
      rw [hctxu] at i3 i4
      refine ⟨?_, ?_, ?_, ?_, ?_, i6⟩
      · rw [hafs, i1, hfeeu]
      · rw [hafs, hic]
        omega
      · rw [hafs, i3]
      · rw [hafs, i4]
      · rw [i5, hctxu]

/-- Gas-fee bounds distribute over worker cons. -/
theorem workersFeeBound_cons (w : WorkerBatch) (ws : List WorkerBatch) :
    workersFeeBound (w :: ws) = infoFeeSum w.infos + workersFeeBound ws := by
  simp [workersFeeBound]

/-- Aggregated balance effects of the whole account phase of Prepare. -/
theorem prepareAccountPhase_sums (workers : List WorkerBatch) :
    ∀ world : Context,
      (world.accounts.map Prod.fst).Nodup →
      (∀ w ∈ workers, ∀ i ∈ w.infos, i.tx.from_ ≠ systemContractAddress) →
      workersFeeBound workers < M256 →
      (prepareAccountPhase world workers).2.1
          = acceptedFeeSum (prepareAccountPhase world workers).2.2 ∧
      acceptedFeeSum (prepareAccountPhase world workers).2.2
          ≤ workersFeeBound workers ∧
      sumBalances (prepareAccountPhase world workers).1
          + (prepareAccountPhase world workers).2.1 = sumBalances world ∧
      sumBalancesExcept (prepareAccountPhase world workers).1 systemContractAddress
          + (prepareAccountPhase world workers).2.1
        = sumBalancesExcept world systemContractAddress ∧
      GetSystemBalance (prepareAccountPhase world workers).1
          = GetSystemBalance world ∧
      ((prepareAccountPhase world workers).1.accounts.map Prod.fst).Nodup := by
  induction workers with
  | nil =>
    intro world hnd _ _
    exact ⟨by simp [prepareAccountPhase, acceptedFeeSum, infoFeeSum],
      by simp [prepareAccountPhase, acceptedFeeSum, infoFeeSum, workersFeeBound],
      by simp [prepareAccountPhase],
      by simp [prepareAccountPhase], rfl, hnd⟩
  | cons w ws ih =>
    intro world hnd hsys hb
    have hbc := workersFeeBound_cons w ws
    have hwb : (0 : Nat) + infoFeeSum w.infos < M256 := by omega
    obtain ⟨w1, w2, w3, w4, w5, w6⟩ := prepWorkerRun_sums w.infos
      ⟨world, [], false, 0, w.addr2nonce, w.addr2Balance⟩ hnd
      (fun i hi => hsys w (List.mem_cons_self _ _) i hi) hwb
    have hunf : prepareAccountPhase world (w :: ws)
        = ((prepareAccountPhase (runWorker world w).1 ws).1,
           ((runWorker world w).2.1
              + (prepareAccountPhase (runWorker world w).1 ws).2.1) % M256,
           (runWorker world w).2.2
              ++ (prepareAccountPhase (runWorker world w).1 ws).2.2) := rfl
    rw [hunf]
    dsimp only
    have hr1 : (runWorker world w).1 = (prepWorkerRun
        ⟨world, [], false, 0, w.addr2nonce, w.addr2Balance⟩ w.infos).1.ctx := rfl
    have hr2 : (runWorker world w).2.1 = (prepWorkerRun
        ⟨world, [], false, 0, w.addr2nonce, w.addr2Balance⟩ w.infos).1.totalGasFee := rfl
    have hr3 : (runWorker world w).2.2 = (prepWorkerRun
        ⟨world, [], false, 0, w.addr2nonce, w.addr2Balance⟩ w.infos).2 := rfl
    obtain ⟨i1, i2, i3, i4, i5, i6⟩ := ih (runWorker world w).1 (by rw [hr1]; exact w6)
      (fun v hv => hsys v (List.mem_cons_of_mem _ hv)) (by omega)
    have haap : acceptedFeeSum ((runWorker world w).2.2
          ++ (prepareAccountPhase (runWorker world w).1 ws).2.2)
        = acceptedFeeSum (runWorker world w).2.2
          + acceptedFeeSum (prepareAccountPhase (runWorker world w).1 ws).2.2 :=
      acceptedFeeSum_append _ _
    have hw1 : (runWorker world w).2.1 = acceptedFeeSum (runWorker world w).2.2 := by
      rw [hr2, hr3, w1]
      simp
    have hw2 : acceptedFeeSum (runWorker world w).2.2 ≤ infoFeeSum w.infos := by
      rw [hr3]; exact w2
    have hw3 : sumBalances (runWorker world w).1
        + acceptedFeeSum (runWorker world w).2.2 = sumBalances world := by
      rw [hr1, hr3]; exact w3
    have hw4 : sumBalancesExcept (runWorker world w).1 systemContractAddress
        + acceptedFeeSum (runWorker world w).2.2
        = sumBalancesExcept world systemContractAddress := by
      rw [hr1, hr3]; exact w4
    have hw5 : GetSystemBalance (runWorker world w).1 = GetSystemBalance world := by
      rw [hr1]; exact w5
    have hmodid : ((runWorker world w).2.1
          + (prepareAccountPhase (runWorker world w).1 ws).2.1) % M256
        = (runWorker world w).2.1
          + (prepareAccountPhase (runWorker world w).1 ws).2.1 := by
      apply Nat.mod_eq_of_lt
      omega
    refine ⟨?_, ?_, ?_, ?_, ?_, i6⟩
    · rw [hmodid, haap, hw1, i1]
    · rw [haap]
      omega
    · rw [hmodid]
      omega
    · rw [hmodid]
      omega
    · rw [i5, hw5]

/-- Claim C7: at the end of Prepare, the system account's balance grows by
exactly the sum of the workers' `totalGasFee` values, which equals the sum
of `gas * gasPrice` over the accepted (untagged) transactions; the same
total was debited from the accepted senders, so the sum of balances over
all non-system accounts decreases by exactly that amount (stated with
no-overflow side conditions on the 256-bit arithmetic and with the
senders distinct from the system account, as the engine guarantees). -/
theorem c7_prepare_fee_conservation (world0 : Context) (workers : List WorkerBatch)
    (hnd : (world0.accounts.map Prod.fst).Nodup)
    (hsys : ∀ w ∈ workers, ∀ i ∈ w.infos, i.tx.from_ ≠ systemContractAddress)
    (hbound : sumBalances world0 + workersFeeBound workers < M256) :
    GetSystemBalance (prepareSettle world0 workers).1
      = GetSystemBalance world0
        + acceptedFeeSum (prepareSettle world0 workers).2.2 ∧
    (prepareSettle world0 workers).2.1
      = acceptedFeeSum (prepareSettle world0 workers).2.2 ∧
    sumBalancesExcept (prepareSettle world0 workers).1 systemContractAddress
        + acceptedFeeSum (prepareSettle world0 workers).2.2
      = sumBalancesExcept world0 systemContractAddress := by
  have hwfb : workersFeeBound workers < M256 := by omega
  obtain ⟨p1, p2, p3, p4, p5, p6⟩ := prepareAccountPhase_sums workers world0 hnd hsys hwfb
  have hsysle : GetSystemBalance (prepareAccountPhase world0 workers).1
      ≤ sumBalances (prepareAccountPhase world0 workers).1 :=
    goLookup_balance_le _ _
  have hsys0le : GetSystemBalance world0 ≤ sumBalances world0 :=
    goLookup_balance_le _ _
  have hroom : GetSystemBalance (prepareAccountPhase world0 workers).1
      + (prepareAccountPhase world0 workers).2.1 < M256 := by
    omega
  have hadd : prepareSettle world0 workers
      = (SetAccount (prepareAccountPhase world0 workers).1 systemContractAddress
          ⟨((GetAccount (prepareAccountPhase world0 workers).1
              systemContractAddress).getD ZeroAccountInfo).nonce,
            (GetSystemBalance (prepareAccountPhase world0 workers).1
              + (prepareAccountPhase world0 workers).2.1) % M256⟩,
         (prepareAccountPhase world0 workers).2.1,
         (prepareAccountPhase world0 workers).2.2) := by
    simp [prepareSettle, AddSystemAccBalance, updateBalance, GetSystemBalance]
  rw [hadd]
  refine ⟨?_, p1, ?_⟩
  · rw [GetSystemBalance, GetAccount, SetAccount]
    rw [goLookup_goInsert_self]
    simp only [Option.getD_some]
    rw [Nat.mod_eq_of_lt hroom, p5, p1]
  · have hexcset : sumBalancesExcept
        (SetAccount (prepareAccountPhase world0 workers).1 systemContractAddress
          ⟨((GetAccount (prepareAccountPhase world0 workers).1
              systemContractAddress).getD ZeroAccountInfo).nonce,
            (GetSystemBalance (prepareAccountPhase world0 workers).1
              + (prepareAccountPhase world0 workers).2.1) % M256⟩)
        systemContractAddress
        = sumBalancesExcept (prepareAccountPhase world0 workers).1
            systemContractAddress := by
      rw [sumBalancesExcept_eq_wtSum, sumBalancesExcept_eq_wtSum, SetAccount]
      dsimp only
      cases hl : goLookup (prepareAccountPhase world0 workers).1.accounts
          systemContractAddress with
      | none =>
        rw [wtSum_goInsert_absent _ _ _ _ hl]
        simp
      | some aS =>
        have := wtSum_goInsert_present
          (fun p => if p.1 == systemContractAddress then 0 else p.2.balance)
          (prepareAccountPhase world0 workers).1.accounts systemContractAddress aS
          ⟨((GetAccount (prepareAccountPhase world0 workers).1
              systemContractAddress).getD ZeroAccountInfo).nonce,
            (GetSystemBalance (prepareAccountPhase world0 workers).1
              + (prepareAccountPhase world0 workers).2.1) % M256⟩ p6 hl
        have hws1 : (fun p : Addr × Account =>
            if p.1 == systemContractAddress then 0 else p.2.balance)
            (systemContractAddress, aS) = 0 := by simp
        have hws2 : (fun p : Addr × Account =>
            if p.1 == systemContractAddress then 0 else p.2.balance)
            (systemContractAddress,
              (⟨((GetAccount (prepareAccountPhase world0 workers).1
                  systemContractAddress).getD ZeroAccountInfo).nonce,
                (GetSystemBalance (prepareAccountPhase world0 workers).1
                  + (prepareAccountPhase world0 workers).2.1) % M256⟩ : Account))
            = 0 := by simp
        rw [hws1, hws2] at this
        omega
    rw [hexcset, ← p1]
    exact p4

/-- Witness for claim C7 on a concrete world (sender balance 100, system
balance 50) and a single worker with one accepted transaction of fee 20. -/
theorem c7_prepare_fee_conservation_witness :
    GetSystemBalance (prepareSettle c7demoWorld [c7demoWorker]).1 = 70 ∧
    sumBalancesExcept (prepareSettle c7demoWorld [c7demoWorker]).1
        systemContractAddress = 80 := by
  have h := c7_prepare_fee_conservation c7demoWorld [c7demoWorker]
    (by decide) (by decide) (by decide)
  constructor
  · rw [h.1]
    decide
  · have h2 : acceptedFeeSum (prepareSettle c7demoWorld [c7demoWorker]).2.2 = 20 := by
      decide
    have h3 : sumBalancesExcept c7demoWorld systemContractAddress = 100 := by
      decide
    have := h.2.2
    omega

/-! ### Theorems for claim C2 -/

/-- Untagged counts distribute over cons. -/
theorem untaggedCount_cons (info : PreparedInfo) (rest : List PreparedInfo) :
    untaggedCount (info :: rest)
      = (if info.errorStr = "" then 1 else 0) + untaggedCount rest := by
  rw [untaggedCount, untaggedCount, List.filter_cons]
  by_cases h : info.errorStr = ""
  · rw [if_pos (by simpa using h), if_pos h, List.length_cons]
    omega
  · rw [if_neg (by simpa using h), if_neg h]
    omega

/-- Full characterization of `insertToStandbyTxQ`'s fold. -/
theorem insertQ_fold_spec (cumGas : Nat) (bn : Int) (bh : Nat) :
    ∀ (infoList : List PreparedInfo) (committed : List Transaction)
      (ops : List StoreOp) (e : Nat),
      infoList.foldl
        (fun (acc : List Transaction × List StoreOp × Nat) info =>
          if info.errorStr ≠ "" then
            (recordInvalidTx acc.1 cumGas bn bh info, acc.2.1, acc.2.2)
          else
            (acc.1, acc.2.1 ++ [StoreOp.set acc.2.2 (info.txBytes.getD ⟨dummyTx⟩)],
              acc.2.2 + 1))
        (committed, ops, e)
      = (committed ++ c2RecordsSpec cumGas bn committed.length infoList,
         ops ++ c2OpsSpec e infoList,
         e + untaggedCount infoList) := by
  intro infoList
  induction infoList with
  | nil =>
    intro committed ops e
    simp [c2RecordsSpec, c2OpsSpec, untaggedCount]
  | cons info rest ih =>
    intro committed ops e
    rw [List.foldl_cons]
    by_cases ht : info.errorStr ≠ ""
    · rw [if_pos ht]
      rw [show recordInvalidTx committed cumGas bn bh info = committed ++
          [{ hash := info.tx.hashID
             transactionIndex := (committed.length : Int)
             nonce := info.tx.nonce
             blockNumber := bn
             from_ := info.tx.from_
             to_ := info.tx.to_
             value := info.tx.value
             gasPrice := info.tx.gasPrice
             gas := info.tx.gas
             input := info.tx.data
             cumulativeGasUsed := cumGas
             gasUsed := 0
             status := ReceiptStatusFailed
             statusStr := info.errorStr }] from rfl]
      rw [ih]
      rw [show c2RecordsSpec cumGas bn committed.length (info :: rest)
          = { hash := info.tx.hashID
              transactionIndex := (committed.length : Int)
              nonce := info.tx.nonce
              blockNumber := bn
              from_ := info.tx.from_
              to_ := info.tx.to_
              value := info.tx.value
              gasPrice := info.tx.gasPrice
              gas := info.tx.gas
              input := info.tx.data
              cumulativeGasUsed := cumGas
              gasUsed := 0
              status := ReceiptStatusFailed
              statusStr := info.errorStr }
            :: c2RecordsSpec cumGas bn (committed.length + 1) rest from by
        rw [c2RecordsSpec, if_pos ht]]
      rw [show c2OpsSpec e (info :: rest) = c2OpsSpec e rest from by
        rw [c2OpsSpec, if_pos ht]]
      rw [untaggedCount_cons, if_neg (by simpa using ht)]
      simp [List.length_append, List.append_assoc]
    · rw [if_neg ht]
      rw [ih]
      rw [show c2RecordsSpec cumGas bn committed.length (info :: rest)
          = c2RecordsSpec cumGas bn committed.length rest from by
        rw [c2RecordsSpec, if_neg ht]]
      rw [show c2OpsSpec e (info :: rest)
          = StoreOp.set e (info.txBytes.getD ⟨dummyTx⟩) :: c2OpsSpec (e + 1) rest from by
        rw [c2OpsSpec, if_neg ht]]
      rw [untaggedCount_cons, if_pos (not_not.mp ht)]
      simp [List.append_assoc]
      omega

/-- Every tagged info has a FAIL record in the spec record list. -/
theorem c2RecordsSpec_mem (cumGas : Nat) (bn : Int) :
    ∀ (infoList : List PreparedInfo) (idx : Nat) (info : PreparedInfo),
      info ∈ infoList → info.errorStr ≠ "" →
      ∃ t ∈ c2RecordsSpec cumGas bn idx infoList,
        t.hash = info.tx.hashID ∧ t.status = ReceiptStatusFailed ∧
        t.gasUsed = 0 ∧ t.statusStr = info.errorStr := by
  intro infoList
  induction infoList with
  | nil => intro idx info hmem; cases hmem
  | cons info' rest ih =>
    intro idx info hmem ht
    rcases List.mem_cons.mp hmem with hmem | hmem
    · subst hmem
      rw [c2RecordsSpec, if_pos ht]
      exact ⟨_, List.mem_cons_self _ _, rfl, rfl, rfl, rfl⟩
    · rw [c2RecordsSpec]
      by_cases ht' : info'.errorStr ≠ ""
      · rw [if_pos ht']
        rcases ih (idx + 1) info hmem ht with ⟨t, htl, hp⟩
        exact ⟨t, List.mem_cons_of_mem _ htl, hp⟩
      · rw [if_neg ht']
        exact ih idx info hmem ht

/-- Claim C2: every transaction tagged with a pre-execution rejection during
Prepare yields a committed-tx record with binary status FAIL, `gasUsed = 0`
and the tag in `statusStr`, and no standby-queue slot is written for it; the
record is in the committed-tx list observable after the block's Execute
(which resets the list and fills it with the committable records) and
Prepare have both run. -/
theorem c2_pre_execution_rejections (prevCommitted collected : List Transaction)
    (cumGas : Nat) (bn : Int) (bh : Nat) (infoList : List PreparedInfo)
    (start0 end0 : Nat) :
    (executeThenPrepareCommitted prevCommitted collected cumGas bn bh infoList
        start0 end0).1
      = collected ++ c2RecordsSpec cumGas bn collected.length infoList ∧
    (executeThenPrepareCommitted prevCommitted collected cumGas bn bh infoList
        start0 end0).2
      = c2OpsSpec end0 infoList
          ++ [StoreOp.ctrl start0 (end0 + untaggedCount infoList)] ∧
    (∀ info ∈ infoList, info.errorStr ≠ "" →
      ∃ t ∈ (executeThenPrepareCommitted prevCommitted collected cumGas bn bh
          infoList start0 end0).1,
        t.hash = info.tx.hashID ∧ t.status = ReceiptStatusFailed ∧
        t.gasUsed = 0 ∧ t.statusStr = info.errorStr) := by
  have hreset : prevCommitted.drop prevCommitted.length = [] := List.drop_length _
  have hunf : executeThenPrepareCommitted prevCommitted collected cumGas bn bh
      infoList start0 end0
      = insertToStandbyTxQ ([] ++ collected) cumGas bn bh infoList start0 end0 := by
    rw [executeThenPrepareCommitted]
    rw [hreset]
  have h1 : executeThenPrepareCommitted prevCommitted collected cumGas bn bh
      infoList start0 end0
      = (collected ++ c2RecordsSpec cumGas bn collected.length infoList,
         c2OpsSpec end0 infoList
           ++ [StoreOp.ctrl start0 (end0 + untaggedCount infoList)]) := by
    rw [hunf, List.nil_append, insertToStandbyTxQ,
      insertQ_fold_spec cumGas bn bh infoList collected [] end0]
    simp
  refine ⟨by rw [h1], by rw [h1], ?_⟩
  intro info hmem ht
  rw [h1]
  rcases c2RecordsSpec_mem cumGas bn infoList collected.length info hmem ht
    with ⟨t, htl, hp⟩
  exact ⟨t, List.mem_append_right _ htl, hp⟩

/-- Witness for claim C2: a concrete block with one tagged and one accepted
transaction produces the FAIL record for the tagged one. -/
theorem c2_pre_execution_rejections_witness :
    ∃ t ∈ (executeThenPrepareCommitted [] [] 0 3 3 [c2demoTagged, c2demoOk] 0 7).1,
      t.hash = 9 ∧ t.status = ReceiptStatusFailed ∧ t.gasUsed = 0 ∧
      t.statusStr = "invalid signature" := by
  have h := (c2_pre_execution_rejections [] [] 0 3 3 [c2demoTagged, c2demoOk] 0 7).2.2
    c2demoTagged (List.mem_cons_self _ _) (by decide)
  simpa [c2demoTagged] using h

/-! ### Theorems for claim C1 -/

/-- Applying a block distributes over cons. -/
theorem applyOps_cons (st : QStore) (op : StoreOp) (ops : List StoreOp) :
    applyOps st (op :: ops) = applyOps (applyOp st op) ops := rfl

/-- Lookup after a Go map deletion. -/
theorem goLookup_goDelete {ν : Type} (m : List (Addr × ν)) (k i : Addr) :
    goLookup (goDelete m k) i = if i = k then none else goLookup m i := by
  induction m with
  | nil =>
    by_cases h : i = k <;> simp [goDelete, goLookup, h]
  | cons p t ih =>
    by_cases hpk : (p.1 == k) = true
    · have p1k : p.1 = k := by simpa using hpk
      have h1 : goDelete (p :: t) k = goDelete t k := by
        rw [goDelete, goDelete, List.filter_cons]
        rw [if_neg (by simp [hpk])]
      rw [h1, ih]
      by_cases hik : i = k
      · rw [if_pos hik, if_pos hik]
      · rw [if_neg hik, if_neg hik, goLookup_cons,
          if_neg (show ¬((p.1 == i) = true) from by
            simp only [beq_iff_eq, p1k]
            exact fun hh => hik hh.symm)]
    · have p1k : ¬(p.1 = k) := by simpa using hpk
      have h1 : goDelete (p :: t) k = p :: goDelete t k := by
        rw [goDelete, goDelete, List.filter_cons]
        rw [if_pos (by simp [hpk])]
      rw [h1, goLookup_cons, goLookup_cons]
      by_cases hpi : (p.1 == i) = true
      · have hik : ¬(i = k) := fun hh => p1k (by simpa [hh] using hpi)
        rw [if_pos hpi, if_neg hik, if_pos hpi]
      · rw [if_neg hpi, ih]
        by_cases hik : i = k
        · rw [if_pos hik, if_pos hik]
        · rw [if_neg hik, if_neg hik, if_neg hpi]

/-- Deleting the head slot shrinks the populated range from the left. -/
theorem slotsExactly_del (st : QStore) (s e : Nat) (h : slotsExactly st s e)
    (hse : s < e) : slotsExactly (applyOp st (StoreOp.del s)) (s + 1) e := by
  intro i
  show (goLookup (goDelete st.slots s) i).isSome = true ↔ s + 1 ≤ i ∧ i < e
  rw [goLookup_goDelete]
  by_cases hik : i = s
  · subst hik
    simp
  · rw [if_neg hik, h i]
    omega

/-- Writing the next slot past the end grows the populated range on the
right. -/
theorem slotsExactly_set (st : QStore) (s e : Nat) (bz : TxBytes)
    (h : slotsExactly st s e) (hse : s ≤ e) :
    slotsExactly (applyOp st (StoreOp.set e bz)) s (e + 1) := by
  intro i
  show (goLookup (goInsert st.slots e bz) i).isSome = true ↔ s ≤ i ∧ i < e + 1
  by_cases hik : i = e
  · subst hik
    rw [goLookup_goInsert_self]
    simpa using hse
  · rw [goLookup_goInsert_ne st.slots e i bz hik, h i]
    omega

/-- One round's slot operations move the populated range from `[s, e)` to
`[s + consumed, e + requeued)`. -/
theorem slotsExactly_roundOps (runners : List TxRunner) :
    ∀ (st : QStore) (s e : Nat), slotsExactly st s e →
      s + runners.length ≤ e →
      slotsExactly (applyOps st (roundOpsSpec s e runners))
        (s + runners.length)
        (e + (runners.filter (fun r => isRetry r.status)).length) := by
  induction runners with
  | nil =>
    intro st s e h hle
    simpa only [roundOpsSpec, applyOps, List.foldl_nil, Nat.add_zero,
      List.filter_nil, List.length_nil] using h
  | cons r rest ih =>
    intro st s e h hle
    rw [roundOpsSpec]
    by_cases hr : isRetry r.status = true
    · rw [if_pos hr, applyOps_cons, applyOps_cons]
      have h1 := slotsExactly_del st s e h
        (by simp only [List.length_cons] at hle; omega)
      have h2 := slotsExactly_set (applyOp st (StoreOp.del s)) (s + 1) e
        r.tx.ToBytes h1 (by simp only [List.length_cons] at hle; omega)
      have h3 := ih (applyOp (applyOp st (StoreOp.del s)) (StoreOp.set e r.tx.ToBytes))
        (s + 1) (e + 1) h2 (by simp only [List.length_cons] at hle; omega)
      rw [show s + (r :: rest).length = (s + 1) + rest.length from by
        simp only [List.length_cons]; omega]
      rw [show e + ((r :: rest).filter (fun x => isRetry x.status)).length
          = (e + 1) + (rest.filter (fun x => isRetry x.status)).length from by
        rw [List.filter_cons, if_pos hr]
        simp only [List.length_cons]; omega]
      exact h3
    · rw [if_neg hr, applyOps_cons]
      have h1 := slotsExactly_del st s e h
        (by simp only [List.length_cons] at hle; omega)
      have h3 := ih (applyOp st (StoreOp.del s)) (s + 1) e h1
        (by simp only [List.length_cons] at hle; omega)
      rw [show s + (r :: rest).length = (s + 1) + rest.length from by
        simp only [List.length_cons]; omega]
      rw [show e + ((r :: rest).filter (fun x => isRetry x.status)).length
          = e + (rest.filter (fun x => isRetry x.status)).length from by
        rw [List.filter_cons, if_neg (by simp [hr])]]
      exact h3

/-- Unfolding equation for a non-terminal Execute round. -/
theorem executeRounds_succ (oracle : Nat → TxToRun → Status)
    (runnerNumber n : Nat) (st : QStore) (s e : Nat) (h : ¬ s = e) :
    executeRounds oracle runnerNumber (n + 1) st s e
      = ((checkTxDepsUpdateQueue s e 0 0
            (roundRunners oracle (n + 1) (loadStandbyTxs st s e runnerNumber))).ops ::
          (executeRounds oracle runnerNumber n
            (applyOps st (checkTxDepsUpdateQueue s e 0 0
              (roundRunners oracle (n + 1)
                (loadStandbyTxs st s e runnerNumber))).ops)
            (checkTxDepsUpdateQueue s e 0 0
              (roundRunners oracle (n + 1)
                (loadStandbyTxs st s e runnerNumber))).start
            (checkTxDepsUpdateQueue s e 0 0
              (roundRunners oracle (n + 1)
                (loadStandbyTxs st s e runnerNumber))).end_).1,
         (executeRounds oracle runnerNumber n
            (applyOps st (checkTxDepsUpdateQueue s e 0 0
              (roundRunners oracle (n + 1)
                (loadStandbyTxs st s e runnerNumber))).ops)
            (checkTxDepsUpdateQueue s e 0 0
              (roundRunners oracle (n + 1)
                (loadStandbyTxs st s e runnerNumber))).start
            (checkTxDepsUpdateQueue s e 0 0
              (roundRunners oracle (n + 1)
                (loadStandbyTxs st s e runnerNumber))).end_).2) := by
  rw [executeRounds]
  rw [if_neg h]

/-- Through any number of Execute rounds the slots track the in-memory
range, which stays well-formed. -/
theorem executeRounds_inv (oracle : Nat → TxToRun → Status) (runnerNumber : Nat) :
    ∀ (fuel : Nat) (st : QStore) (s e : Nat),
      slotsExactly st s e → s ≤ e →
      slotsExactly
        ((executeRounds oracle runnerNumber fuel st s e).1.foldl applyOps st)
        (executeRounds oracle runnerNumber fuel st s e).2.1
        (executeRounds oracle runnerNumber fuel st s e).2.2 ∧
      (executeRounds oracle runnerNumber fuel st s e).2.1
        ≤ (executeRounds oracle runnerNumber fuel st s e).2.2 := by
  intro fuel
  induction fuel with
  | zero =>
    intro st s e h hse
    exact ⟨h, hse⟩
  | succ n ih =>
    intro st s e h hse
    by_cases hse0 : s = e
    · rw [show executeRounds oracle runnerNumber (n + 1) st s e = ([], s, e) from by
        rw [executeRounds]; rw [if_pos hse0]]
      exact ⟨h, hse⟩
    · have hup0 := updStandby_foldl
        (roundRunners oracle (n + 1) (loadStandbyTxs st s e runnerNumber))
        s e 0 0 [] [] (by norm_num [M64]) (by norm_num [M256])
      have hupd : checkTxDepsUpdateQueue s e 0 0
          (roundRunners oracle (n + 1) (loadStandbyTxs st s e runnerNumber))
          = ⟨s + (roundRunners oracle (n + 1)
                (loadStandbyTxs st s e runnerNumber)).length,
             e + ((roundRunners oracle (n + 1)
                (loadStandbyTxs st s e runnerNumber)).filter
                  (fun r => isRetry r.status)).length,
             roundOpsSpec s e
               (roundRunners oracle (n + 1) (loadStandbyTxs st s e runnerNumber)),
             droppedGasSum (roundRunners oracle (n + 1)
               (loadStandbyTxs st s e runnerNumber)) % M64,
             droppedFeeSum (roundRunners oracle (n + 1)
               (loadStandbyTxs st s e runnerNumber)) % M256,
             (roundRunners oracle (n + 1)
               (loadStandbyTxs st s e runnerNumber)).filter
                 (fun r => !isRetry r.status && !isDropped r.status)⟩ := by
        rw [checkTxDepsUpdateQueue, hup0]
        simp
      have hlen : (roundRunners oracle (n + 1)
          (loadStandbyTxs st s e runnerNumber)).length ≤ e - s := by
        simpa [roundRunners, loadStandbyTxs] using
          Nat.min_le_right runnerNumber (e - s)
      have h1 := slotsExactly_roundOps
        (roundRunners oracle (n + 1) (loadStandbyTxs st s e runnerNumber))
        st s e h (by omega)
      have h2 := ih (applyOps st (roundOpsSpec s e
          (roundRunners oracle (n + 1) (loadStandbyTxs st s e runnerNumber))))
        (s + (roundRunners oracle (n + 1)
          (loadStandbyTxs st s e runnerNumber)).length)
        (e + ((roundRunners oracle (n + 1)
          (loadStandbyTxs st s e runnerNumber)).filter
            (fun r => isRetry r.status)).length)
        h1 (by omega)
      rw [executeRounds_succ oracle runnerNumber n st s e hse0, hupd]
      dsimp only
      rw [List.foldl_cons]
      exact h2

/-- Unfolding equation for the Execute trunk-traffic model. -/
theorem ExecuteModel_eq (oracle : Nat → TxToRun → Status)
    (roundNum runnerNumber : Nat) (st0 : QStore) :
    ExecuteModel oracle roundNum runnerNumber st0
      = if (ctrlRange st0).1 = (ctrlRange st0).2
        then ([], (ctrlRange st0).1, (ctrlRange st0).2)
        else
          ((executeRounds oracle runnerNumber roundNum st0 (ctrlRange st0).1
              (ctrlRange st0).2).1
            ++ [[StoreOp.ctrl
                  (executeRounds oracle runnerNumber roundNum st0
                    (ctrlRange st0).1 (ctrlRange st0).2).2.1
                  (executeRounds oracle runnerNumber roundNum st0
                    (ctrlRange st0).1 (ctrlRange st0).2).2.2]],
           (executeRounds oracle runnerNumber roundNum st0 (ctrlRange st0).1
              (ctrlRange st0).2).2) := rfl

/-- Prepare's slot writes extend the populated range through the whole
update block. -/
theorem slotsExactly_c2Ops (infoList : List PreparedInfo) :
    ∀ (st : QStore) (s e : Nat), slotsExactly st s e → s ≤ e →
      slotsExactly (applyOps st (c2OpsSpec e infoList)) s
        (e + untaggedCount infoList) := by
  induction infoList with
  | nil =>
    intro st s e h _
    simpa [c2OpsSpec, applyOps, untaggedCount] using h
  | cons info rest ih =>
    intro st s e h hse
    by_cases ht : info.errorStr ≠ ""
    · rw [show c2OpsSpec e (info :: rest) = c2OpsSpec e rest from by
        rw [c2OpsSpec, if_pos ht],
        untaggedCount_cons, if_neg ht, Nat.zero_add]
      exact ih st s e h hse
    · rw [show c2OpsSpec e (info :: rest)
          = StoreOp.set e (info.txBytes.getD ⟨dummyTx⟩) :: c2OpsSpec (e + 1) rest from by
        rw [c2OpsSpec, if_neg ht],
        applyOps_cons, untaggedCount_cons, if_pos (not_not.mp ht)]
      have h1 := slotsExactly_set st s e (info.txBytes.getD ⟨dummyTx⟩) h hse
      have h2 := ih (applyOp st (StoreOp.set e (info.txBytes.getD ⟨dummyTx⟩)))
        s (e + 1) h1 (by omega)
      rw [show e + (1 + untaggedCount rest) = (e + 1) + untaggedCount rest from by
        omega]
      exact h2

/-- Counterexample to claim C1 as stated: on a queue holding one
transaction, Execute's first trunk update block deletes the consumed slot
but leaves the stale control key `(0, 1)` in place (the control key is only
rewritten by `setStandbyQueueRange` in a separate, later update block), so
the store seen after that intermediate update violates the invariant. -/
theorem c1_claim_counterexample :
    (ExecuteModel (fun _ _ => Status.SUCCESS) 1 64 c1demoStore).1
      = [[StoreOp.del 0], [StoreOp.ctrl 1 1]] ∧
    ¬ queueInvariant (applyOps c1demoStore [StoreOp.del 0]) := by
  refine ⟨by decide, ?_⟩
  intro h
  exact absurd ((h.2 0).mpr (by decide)) (by decide)

/-- Claim C1 (amended): the persisted-queue invariant — control key
`start ≤ end` with exactly the slots `[start, end)` populated — is an
invariant of the trunk store at update-block granularity for Prepare, whose
single `insertToStandbyTxQ` block writes the new slots and the control key
together; Execute preserves it end-to-end (its round blocks keep the slots
matching the in-memory range, and the final separate `setStandbyQueueRange`
block rewrites the control key to that range), though not necessarily after
its intermediate round blocks alone. -/
theorem c1_queue_invariant_amended (st : QStore)
    (committedTxs : List Transaction) (cumGas : Nat) (bn : Int) (bh : Nat)
    (infoList : List PreparedInfo) (oracle : Nat → TxToRun → Status)
    (roundNum runnerNumber : Nat) (hinv : queueInvariant st) :
    queueInvariant (applyOps st
      (insertToStandbyTxQ committedTxs cumGas bn bh infoList
        (ctrlRange st).1 (ctrlRange st).2).2) ∧
    queueInvariant
      ((ExecuteModel oracle roundNum runnerNumber st).1.foldl applyOps st) := by
  constructor
  · have hops : (insertToStandbyTxQ committedTxs cumGas bn bh infoList
        (ctrlRange st).1 (ctrlRange st).2).2
        = c2OpsSpec (ctrlRange st).2 infoList
          ++ [StoreOp.ctrl (ctrlRange st).1
              ((ctrlRange st).2 + untaggedCount infoList)] := by
      rw [insertToStandbyTxQ,
        insertQ_fold_spec cumGas bn bh infoList committedTxs [] (ctrlRange st).2]
      simp
    rw [hops]
    have happ : applyOps st (c2OpsSpec (ctrlRange st).2 infoList
        ++ [StoreOp.ctrl (ctrlRange st).1
            ((ctrlRange st).2 + untaggedCount infoList)])
        = applyOp (applyOps st (c2OpsSpec (ctrlRange st).2 infoList))
            (StoreOp.ctrl (ctrlRange st).1
              ((ctrlRange st).2 + untaggedCount infoList)) := by
      rw [applyOps, List.foldl_append]
      rfl
    rw [happ]
    have h1 := slotsExactly_c2Ops infoList st (ctrlRange st).1 (ctrlRange st).2
      hinv.2 hinv.1
    constructor
    · show (ctrlRange st).1 ≤ (ctrlRange st).2 + untaggedCount infoList
      have := hinv.1
      omega
    · intro i
      show (goLookup (applyOps st (c2OpsSpec (ctrlRange st).2 infoList)).slots
          i).isSome = true
          ↔ ((ctrlRange st).1 ≤ i ∧ i < (ctrlRange st).2 + untaggedCount infoList)
      exact h1 i
  · rw [ExecuteModel_eq]
    by_cases h0 : (ctrlRange st).1 = (ctrlRange st).2
    · rw [if_pos h0]
      exact hinv
    · rw [if_neg h0]
      have hr := executeRounds_inv oracle runnerNumber roundNum st
        (ctrlRange st).1 (ctrlRange st).2 hinv.2 hinv.1
      dsimp only
      rw [List.foldl_append]
      exact ⟨hr.2, hr.1⟩

/-- Witness for claim C1 (amended): the demo store with range `[0, 1)`,
run through a Prepare insertion with one tagged and one accepted
transaction, and through a one-round Execute. -/
theorem c1_queue_invariant_amended_witness :
    queueInvariant (applyOps c1demoStore
      (insertToStandbyTxQ [] 0 0 0 [c2demoTagged, c2demoOk]
        (ctrlRange c1demoStore).1 (ctrlRange c1demoStore).2).2) ∧
    queueInvariant
      ((ExecuteModel (fun _ _ => Status.SUCCESS) 1 64 c1demoStore).1.foldl
        applyOps c1demoStore) := by
  have hinv : queueInvariant c1demoStore := by
    constructor
    · decide
    · intro i
      by_cases h0 : i = 0
      · subst h0
        constructor
        · intro _
          decide
        · intro _
          decide
      · constructor
        · intro hsome
          exfalso
          have hl : goLookup c1demoStore.slots i = none := by
            rw [show c1demoStore.slots
                = [((0 : Nat), TxToRun.ToBytes ⟨5, 21, 22, 0, 0, 1, 9, []⟩)] from
              rfl]
            rw [goLookup_cons]
            rw [show ((((0 : Nat), TxToRun.ToBytes ⟨5, 21, 22, 0, 0, 1, 9, []⟩)).1
                == i) = false from by
              simp only [beq_eq_false_iff_ne, ne_eq]
              exact fun hh => h0 hh.symm]
            rfl
          rw [hl] at hsome
          simp at hsome
        · intro hr
          have hr' : 0 ≤ i ∧ i < 1 := hr
          exact absurd (show i = 0 from by omega) h0
  exact c1_queue_invariant_amended c1demoStore [] 0 0 0 [c2demoTagged, c2demoOk]
    (fun _ _ => Status.SUCCESS) 1 64 hinv

/-! ### Theorems for claims C9 and C10 -/

/-- Claim C9: for every address, every getter of a nil frontier
(`GetLatestNonce`, `GetLatestBalance`, `GetLatestTotalGas`) returns
not-present (`exist = false` with a zero/nil value), and every setter of a
nil frontier (`SetLatestNonce`, `SetLatestBalance`, `SetLatestTotalGas`) is
a no-op that does not fault. -/
theorem c9_nil_frontier_tolerates (addr : Addr) (n : Nat) (b : Option Nat) (g : Nat) :
    GetLatestNonce none addr = (0, false) ∧
    GetLatestBalance none addr = (none, false) ∧
    GetLatestTotalGas none addr = (0, false) ∧
    SetLatestNonce none addr n = none ∧
    SetLatestBalance none addr b = none ∧
    SetLatestTotalGas none addr g = none := by
  exact ⟨rfl, rfl, rfl, rfl, rfl, rfl⟩

/-- Claim C10 (code bug): on an engine fresh from `NewEbpTxExec`, on which
`Execute` has never run, `GasUsedInfo` takes the `cumulativeGasFee == nil`
branch and dereferences the still-nil `cumulativeFeeRefund` pointer: the Go
code panics instead of returning `(0, 0, 0)`. -/
theorem c10_gasUsedInfo_fresh_engine_panics :
    GasUsedInfo (NewEbpTxExec 100 256 16 4096) = Except.error GoPanic.nilPointerDeref := by
  rfl

end Ebp
